import Mathlib

/-!
A shallow embedding of `src/Constructor.js` (repository dfkaye/Constructor).

The module under verification is a prototypal-inheritance helper: the
function `Constructor` (the spec's *Normalize*) coerces a specification
(callable or plain object) into a constructor, and `Constructor.extend`
(the spec's *Extend*) links a new constructor's prototype into the source's
prototype and installs a call-once `parent` initializer on it.

The embedding models a mutable JavaScript object heap: each object has an
ordered list of own enumerable properties, an internal prototype value, and
optionally code (it is then callable).  User-supplied initializer bodies are
data (a tiny statement language sufficient for the constructor bodies the
repository exercises: assigning fields of `this` from literals, arguments or
`this`-lookups, and invoking `this.parent(...)`).  A fuel-indexed interpreter
`runTask` implements function invocation, the `new` protocol, and the
`parent` initializer installed by `extend` (Constructor.js lines 111-127).
Machine details elided as unobservable by this code: the throwaway `this`
object of `new Constructor(...)` (whose return value, always an object,
replaces it), and the default `prototype` object of fresh functions (every
function's `prototype` relevant here is explicitly assigned before any use).
-/

namespace ConstructorJs

/-- Heap addresses of JavaScript objects. -/
abbrev Addr := Nat

/-- JavaScript values as far as this module observes them: the primitives
that can reach its type checks, and references to heap objects. -/
inductive Value where
  | undef
  | vnull
  | num (n : Int)
  | str (s : String)
  | bool (b : Bool)
  | ref (a : Addr)
deriving DecidableEq, Repr

/-- Argument expressions of user constructor bodies: a literal, a positional
argument of the current invocation, a property lookup on `this`, `this`
itself, or a property lookup on a positional argument (`o.k` where `o` is a
parameter). -/
inductive Arg where
  | cst (v : Value)
  | argIdx (i : Nat)
  | thisProp (k : String)
  | athis
  | argProp (i : Nat) (k : String)
deriving DecidableEq, Repr

/-- Statements of user constructor bodies: `this.k = e` and
`this.parent(e1, ..., en)` (the parent-initializer invocation convention). -/
inductive Stmt where
  | assignThis (k : String) (a : Arg)
  | callParent (argEs : List Arg)
deriving DecidableEq, Repr

/-- Code carried by callable heap objects: the no-op initializer
`function () {}`, the `parent` initializer that `extend` installs
(Constructor.js lines 111-127), or a user-supplied constructor body. -/
inductive Code where
  | noop
  | parentInit
  | user (body : List Stmt)
deriving DecidableEq, Repr

/-- A heap object: ordered own enumerable properties, internal prototype
(the delegation target for property lookup), and optional code. -/
structure Obj where
  props : List (String × Value)
  proto : Value
  code : Option Code
deriving DecidableEq, Repr

/-- The object heap: a partial map from addresses to objects plus the next
fresh address. -/
structure Heap where
  objs : Addr → Option Obj
  next : Addr

/-- Lookup in an ordered own-property list (first match). -/
def getProps : List (String × Value) → String → Option Value
  | [], _ => none
  | p :: rest, k => if p.1 = k then some p.2 else getProps rest k

/-- Update of an ordered own-property list: JavaScript assignment keeps the
insertion position of an existing key and appends a new one. -/
def setProps : List (String × Value) → String → Value → List (String × Value)
  | [], k, v => [(k, v)]
  | p :: rest, k, v => if p.1 = k then (k, v) :: rest else p :: setProps rest k v

/-- Own-property read on a heap object. -/
def Heap.getOwn (h : Heap) (a : Addr) (k : String) : Option Value :=
  match h.objs a with
  | some o => getProps o.props k
  | none => none

/-- Own-property write on a heap object (no effect on a dangling address). -/
def Heap.setOwn (h : Heap) (a : Addr) (k : String) (v : Value) : Heap :=
  { h with
    objs := fun b =>
      if b = a then (h.objs a).map (fun o => { o with props := setProps o.props k v })
      else h.objs b }

/-- Allocate a fresh object with no own properties. -/
def Heap.alloc (h : Heap) (proto : Value) (code : Option Code) : Heap × Addr :=
  ({ objs := fun b =>
       if b = h.next then some { props := [], proto := proto, code := code }
       else h.objs b,
     next := h.next + 1 }, h.next)

/-- Has-own-property test (`source.hasOwnProperty(k)`). -/
def Heap.hasOwn (h : Heap) (a : Addr) (k : String) : Bool :=
  (h.getOwn a k).isSome

/-- Prototype-chain property lookup with explicit fuel; a property get on a
primitive yields `undefined` (none of the built-in prototypes carries the
keys this module reads). -/
def getPropFuel (h : Heap) : Nat → Value → String → Value
  | 0, _, _ => .undef
  | fuel + 1, .ref a, k =>
    match h.objs a with
    | none => .undef
    | some o =>
      match getProps o.props k with
      | some v => v
      | none => getPropFuel h fuel o.proto k
  | _ + 1, _, _ => Value.undef

/-- Prototype-chain property lookup (`target.k`).  Prototypes are assigned
at allocation to already-existing values, so chains from a well-formed heap
strictly descend and `h.next + 1` steps always suffice. -/
def getProp (h : Heap) (v : Value) (k : String) : Value :=
  getPropFuel h (h.next + 1) v k

/-- String conversion of a value as it appears in the error message of
Constructor.js line 45 (only primitives can reach that message). -/
def display : Value → String
  | .undef => "undefined"
  | .vnull => "null"
  | .num n => toString n
  | .str s => s
  | .bool b => toString b
  | .ref _ => "[object Object]"

/-- JavaScript `typeof`. -/
def typeOf (h : Heap) : Value → String
  | .undef => "undefined"
  | .vnull => "object"
  | .num _ => "number"
  | .str _ => "string"
  | .bool _ => "boolean"
  | .ref a =>
    match h.objs a with
    | some o => if o.code.isSome then "function" else "object"
    | none => "object"

/-- Errors the embedded code can raise. -/
inductive JsError where
  | refError (msg : String)
  | typeError (msg : String)
  | outOfGas
deriving DecidableEq, Repr

/-- Outcome of an embedded computation: the heap is threaded through both
success and failure, so mutation-before-error is observable. -/
inductive Res where
  | ok (h : Heap) (v : Value)
  | err (h : Heap) (e : JsError)

/-- Heap component of an outcome. -/
def Res.heap : Res → Heap
  | .ok h _ => h
  | .err h _ => h

/-- Value component of a successful outcome. -/
def Res.val : Res → Option Value
  | .ok _ v => some v
  | .err _ _ => none

/-- Sloppy-mode property assignment `target.k = v`: writes through a
reference, throws on `undefined`/`null`, and is a silent no-op on other
primitives.  Evaluates to the assigned value. -/
def assign (h : Heap) (target : Value) (k : String) (v : Value) : Res :=
  match target with
  | .ref a => .ok (h.setOwn a k v) v
  | .undef => .err h (.typeError ("Cannot set properties of undefined (setting \x27" ++ k ++ "\x27)"))
  | .vnull => .err h (.typeError ("Cannot set properties of null (setting \x27" ++ k ++ "\x27)"))
  | _ => .ok h v

/-- Code of a value, when it is a reference to a callable object. -/
def callableCode (h : Heap) (v : Value) : Option Code :=
  match v with
  | .ref a => (h.objs a).bind (fun o => o.code)
  | _ => none

/-- Error message prefix of `Constructor` (Constructor.js line 33). -/
def ctorMsg : String :=
  "Constructor(): invalid \x27source\x27 argument, must be a function or prototype, but was "

/-- The function `Constructor` of Constructor.js lines 30-54 (the spec's
*Normalize*): callables pass through; `undefined` is a ReferenceError; other
non-objects (and `null`) are TypeErrors; an object specification becomes the
prototype of a constructor taken from its own `constructor` property (a
fresh no-op function when absent), and its `constructor` property is pointed
back at that constructor. -/
def ConstructorFn (h : Heap) (source : Value) : Res :=
  let type := typeOf h source
  if type = "function" then .ok h source
  else if type = "undefined" then .err h (.refError (ctorMsg ++ "undefined"))
  else if type ≠ "object" ∨ source = .vnull then
    .err h (.typeError (ctorMsg ++
      (if type ≠ "object" then type ++ " [" ++ display source ++ "]" else "null")))
  else
    match source with
    | .ref a =>
      let st :=
        if h.hasOwn a "constructor" then (h, (h.getOwn a "constructor").getD .undef)
        else
          let fr := h.alloc .undef (some .noop)
          (fr.1, Value.ref fr.2)
      match assign st.1 st.2 "prototype" source with
      | .err h2 e => .err h2 e
      | .ok h2 _ =>
        match assign h2 (getProp h2 st.2 "prototype") "constructor" st.2 with
        | .err h3 e => .err h3 e
        | .ok h3 _ => .ok h3 st.2
    | _ => .err h (.typeError "unreachable")

/-- Evaluation of an argument expression of a user constructor body. -/
def evalArg (h : Heap) (thisA : Addr) (args : List Value) : Arg → Value
  | .cst v => v
  | .argIdx i => args.getD i .undef
  | .thisProp k => getProp h (.ref thisA) k
  | .athis => .ref thisA
  | .argProp i k => getProp h (args.getD i .undef) k

/-- Sequential own-property writes (the `for (var k in p)` copy loops of
Constructor.js lines 98-102 and 118-122). -/
def setMany (h : Heap) (dst : Addr) (ps : List (String × Value)) : Heap :=
  ps.foldl (fun h' kv => h'.setOwn dst kv.1 kv.2) h

/-- Copy every own enumerable property of `src` onto `dst`. -/
def copyOwn (h : Heap) (src dst : Addr) : Heap :=
  match h.objs src with
  | some o => setMany h dst o.props
  | none => h

/-- TypeError raised when invoking a non-callable value. -/
def notFn : JsError := .typeError "is not a function"

/-- TypeError raised when `new` is applied to a non-callable value. -/
def notCtor : JsError := .typeError "is not a constructor"

/-- Interpreter work items: a function invocation with an explicit `this`,
a `new` invocation, and the execution of a user body. -/
inductive Task where
  | call (fnV : Value) (thisA : Addr) (args : List Value)
  | newObj (fnV : Value) (args : List Value)
  | seq (thisA : Addr) (args : List Value) (body : List Stmt)

/-- The interpreter.  The `.call` case with code `.parentInit` is the
`newPrototype.parent` function of Constructor.js lines 111-127: read
`this.constructor.parent`, build `p = new parent`, run
`p.constructor.apply(p, arguments)`, copy every own enumerable property of
`p` onto `this`, store `p` in `this.parent` (an own property shadowing the
inherited function), and return `this`.  The `.newObj` case is the `new`
protocol: allocate an object whose prototype is the value of the callee's
`prototype` property, run the callee against it, and yield the callee's
result when it is an object, the fresh object otherwise. -/
def runTask : Nat → Task → Heap → Res
  | 0, _, h => .err h .outOfGas
  | fuel + 1, .call fnV thisA args, h =>
    match callableCode h fnV with
    | some .noop => .ok h .undef
    | some (.user body) =>
      match runTask fuel (.seq thisA args body) h with
      | .ok h' _ => .ok h' .undef
      | .err h' e => .err h' e
    | some .parentInit =>
      let parentV := getProp h (getProp h (.ref thisA) "constructor") "parent"
      match runTask fuel (.newObj parentV []) h with
      | .err h' e => .err h' e
      | .ok h' pV =>
        match pV with
        | .ref pA =>
          match runTask fuel (.call (getProp h' (.ref pA) "constructor") pA args) h' with
          | .err h2 e => .err h2 e
          | .ok h2 _ =>
            .ok ((copyOwn h2 pA thisA).setOwn thisA "parent" (.ref pA)) (.ref thisA)
        | _ => .err h' notCtor
    | none => .err h notFn
  | fuel + 1, .newObj fnV args, h =>
    match callableCode h fnV with
    | none => .err h notCtor
    | some _ =>
      let protoV := getProp h fnV "prototype"
      let fr := h.alloc protoV none
      match runTask fuel (.call fnV fr.2 args) fr.1 with
      | .err h2 e => .err h2 e
      | .ok h2 r =>
        match r with
        | .ref b => .ok h2 (.ref b)
        | _ => .ok h2 (.ref fr.2)
  | _ + 1, .seq _ _ [], h => .ok h .undef
  | fuel + 1, .seq thisA args (s :: rest), h =>
    match s with
    | .assignThis k arg =>
      runTask fuel (.seq thisA args rest) (h.setOwn thisA k (evalArg h thisA args arg))
    | .callParent argEs =>
      match runTask fuel (.call (getProp h (.ref thisA) "parent") thisA
                            (argEs.map (evalArg h thisA args))) h with
      | .err h' e => .err h' e
      | .ok h' _ => runTask fuel (.seq thisA args rest) h'

/-- Normalization of the source argument of `extend` (Constructor.js line
78): pass a callable through, otherwise run it through `Constructor`
(whose successful result is always an object, so the `new` wrapper returns
it unchanged). -/
def normalizeSpec (h : Heap) (v : Value) : Res :=
  if typeOf h v ≠ "function" then ConstructorFn h v else .ok h v

/-- Normalization of the target argument of `extend` (Constructor.js line
79): the type test reads the heap as it was on entry (`targetType` is
computed at line 73, before the source was normalized), while the
normalization itself runs on the current heap. -/
def targetNorm (h0 h1 : Heap) (target : Value) : Res :=
  if typeOf h0 target ≠ "function" then ConstructorFn h1 target else .ok h1 target

/-- Error message of `extend`'s argument-count check (Constructor.js line 69). -/
def extendCountMsg : String :=
  "Constructor.extend(): requires 2 arguments, source and target."

/-- The body of `Constructor.extend` after its argument-count check
(Constructor.js lines 72-131): normalize source and target, build the link
constructor `F`, store it in `newConstructor.parent`, graft the source's
prototype onto `F`, build `newPrototype = new F`, copy the target's own
prototype properties onto it when the target was supplied as an object,
restore `newPrototype.constructor`, install the `parent` initializer, and
replace `newConstructor.prototype`. -/
def extendCore (h0 : Heap) (source target : Value) : Res :=
  let targetType := typeOf h0 target
  match normalizeSpec h0 source with
  | .err h e => .err h e
  | .ok h1 newSource =>
    match targetNorm h0 h1 target with
    | .err h e => .err h e
    | .ok h2 newConstructor =>
      let fr := h2.alloc .undef (some .noop)
      match assign fr.1 newConstructor "parent" (.ref fr.2) with
      | .err h e => .err h e
      | .ok h4 _ =>
        let h5 := h4.setOwn fr.2 "prototype" (getProp h4 newSource "prototype")
        match runTask 2 (.newObj (.ref fr.2) []) h5 with
        | .err h e => .err h e
        | .ok h6 npV =>
          match npV with
          | .ref npA =>
            let h7 :=
              if targetType = "object" then
                match getProp h6 newConstructor "prototype" with
                | .ref protoA => copyOwn h6 protoA npA
                | _ => h6
              else h6
            let h8 := h7.setOwn npA "constructor" newConstructor
            let fr9 := h8.alloc .undef (some .parentInit)
            let h10 := fr9.1.setOwn npA "parent" (.ref fr9.2)
            match assign h10 newConstructor "prototype" (.ref npA) with
            | .err h e => .err h e
            | .ok h11 _ => .ok h11 newConstructor
          | _ => .err h6 notCtor

/-- The function `Constructor.extend` of Constructor.js lines 64-132 (the
spec's *Extend*): fewer than two arguments is a TypeError, and arguments
beyond the first two are ignored. -/
def extendFn (h : Heap) (args : List Value) : Res :=
  if args.length < 2 then .err h (.typeError extendCountMsg)
  else extendCore h (args.getD 0 .undef) (args.getD 1 .undef)

/-- A heap written down as a list of objects at addresses `0, 1, ...`. -/
def listHeap (l : List Obj) : Heap :=
  { objs := fun a => l.get? a, next := l.length }

/-- Well-formed heaps: every live address is below the allocation pointer
(so fresh allocations never clobber), and own-property lists carry no
duplicate keys (they are only ever built by `setProps`). -/
def Heap.wf (h : Heap) : Prop :=
  (∀ a, (h.objs a).isSome → a < h.next) ∧
  (∀ a o, h.objs a = some o → (o.props.map Prod.fst).Nodup)

/-- `v` is not a reference to the address `X`. -/
def Value.avoids (X : Addr) : Value → Bool
  | .ref a => decide (a ≠ X)
  | _ => true

/-- The literal of an argument expression is not a reference to `X` (the
other forms evaluate heap- or invocation-supplied values). -/
def Arg.avoidsB (X : Addr) : Arg → Bool
  | .cst v => v.avoids X
  | _ => true

/-- No literal of the statement is a reference to `X`. -/
def Stmt.avoidsB (X : Addr) : Stmt → Bool
  | .assignThis _ a => a.avoidsB X
  | .callParent argEs => argEs.all (Arg.avoidsB X)

/-- No literal of the code is a reference to `X`. -/
def Code.avoidsB (X : Addr) : Code → Bool
  | .user body => body.all (Stmt.avoidsB X)
  | _ => true

/-- The object holds no reference to `X`: not as its prototype, not as an
own-property value, and not as a literal of its code. -/
def Obj.avoidsB (X : Addr) (o : Obj) : Bool :=
  o.proto.avoids X && o.props.all (fun p => p.2.avoids X) &&
    (match o.code with | some c => Code.avoidsB X c | none => true)

/-- Every object of the heap other than `X` itself holds no reference to
`X` — the situation of a freshly constructed instance, which nothing in
the surrounding heap references. -/
def Heap.avoidsOff (h : Heap) (X : Addr) : Prop :=
  ∀ a o, a ≠ X → h.objs a = some o → Obj.avoidsB X o = true

/-- The task neither runs with `this = X` nor carries a reference to `X`
in its callee, its argument values, or its body literals. -/
def Task.cleanB (X : Addr) : Task → Bool
  | .call fnV thisA args =>
      fnV.avoids X && decide (thisA ≠ X) && args.all (Value.avoids X)
  | .newObj fnV args => fnV.avoids X && args.all (Value.avoids X)
  | .seq thisA args body =>
      decide (thisA ≠ X) && args.all (Value.avoids X) && body.all (Stmt.avoidsB X)

/-- Frame invariant for a pair of executions started in heaps `h0`, `h0'`
that agreed everywhere except at `X`: the current heaps `g`, `g'` still
agree everywhere except at `X`, still avoid `X`, and neither run has
touched `X`. -/
def heapFrame (X : Addr) (h0 h0' g g' : Heap) : Prop :=
  g.next = g'.next ∧ (∀ a, a ≠ X → g.objs a = g'.objs a) ∧ Heap.avoidsOff g X ∧
  g.objs X = h0.objs X ∧ g'.objs X = h0'.objs X ∧ h0.next ≤ g.next

/-- Frame relation on outcomes: the two runs agree on success or failure,
on the produced value or error, and on every heap cell other than `X`,
which neither run has touched; a produced value is never a reference to
`X`. -/
def resFrame (X : Addr) (h0 h0' : Heap) : Res → Res → Prop
  | .ok g v, .ok g' v' => v = v' ∧ Value.avoids X v = true ∧ heapFrame X h0 h0' g g'
  | .err g e, .err g' e' => e = e' ∧ heapFrame X h0 h0' g g'
  | _, _ => False

section Lemmas

theorem getProps_setProps_self (l : List (String × Value)) (k : String) (v : Value) :
    getProps (setProps l k v) k = some v := by
  induction l with
  | nil => simp [setProps, getProps]
  | cons p rest ih =>
    by_cases hp : p.1 = k
    · simp [setProps, hp, getProps]
    · simp [setProps, hp, getProps, ih]

theorem getProps_setProps_ne (l : List (String × Value)) (k k' : String) (v : Value)
    (hne : k' ≠ k) : getProps (setProps l k v) k' = getProps l k' := by
  induction l with
  | nil => simp [setProps, getProps, Ne.symm hne]
  | cons p rest ih =>
    by_cases hp : p.1 = k
    · rw [setProps, if_pos hp, getProps, getProps, hp, if_neg (Ne.symm hne)]
      rw [if_neg (Ne.symm hne)]
    · rw [setProps, if_neg hp, getProps, getProps, ih]

theorem getProps_eq_none (l : List (String × Value)) (k : String) :
    getProps l k = none ↔ k ∉ l.map Prod.fst := by
  induction l with
  | nil => simp [getProps]
  | cons p rest ih =>
    by_cases hp : p.1 = k
    · simp [getProps, hp]
    · simp [getProps, hp, ih, Ne.symm hp]

theorem keys_setProps (l : List (String × Value)) (k : String) (v : Value) :
    (setProps l k v).map Prod.fst =
      if (getProps l k).isSome then l.map Prod.fst else l.map Prod.fst ++ [k] := by
  induction l with
  | nil => simp [setProps, getProps]
  | cons p rest ih =>
    by_cases hp : p.1 = k
    · simp [setProps, hp, getProps]
    · rw [setProps, if_neg hp, getProps, if_neg hp, List.map_cons, ih]
      by_cases hs : (getProps rest k).isSome
      · rw [if_pos hs, if_pos hs, List.map_cons]
      · rw [if_neg hs, if_neg hs, List.map_cons, List.cons_append]

theorem nodup_setProps (l : List (String × Value)) (k : String) (v : Value)
    (hn : (l.map Prod.fst).Nodup) : ((setProps l k v).map Prod.fst).Nodup := by
  rw [keys_setProps]
  by_cases hs : (getProps l k).isSome
  · simpa [hs] using hn
  · have : getProps l k = none := by
      cases hg : getProps l k
      · rfl
      · simp [hg] at hs
    rw [if_neg hs]
    simp only [List.nodup_append, List.nodup_cons, List.nodup_nil]
    exact ⟨hn, by simp, by simpa using (getProps_eq_none l k).mp this⟩

theorem next_setOwn (h : Heap) (a : Addr) (k : String) (v : Value) :
    (h.setOwn a k v).next = h.next := rfl

theorem objs_setOwn_ne (h : Heap) (a : Addr) (k : String) (v : Value) (b : Addr)
    (hne : b ≠ a) : (h.setOwn a k v).objs b = h.objs b := by
  simp [Heap.setOwn, hne]

theorem objs_setOwn_self (h : Heap) (a : Addr) (k : String) (v : Value) (o : Obj)
    (ho : h.objs a = some o) :
    (h.setOwn a k v).objs a = some { o with props := setProps o.props k v } := by
  simp [Heap.setOwn, ho]

theorem setOwn_dangling (h : Heap) (a : Addr) (k : String) (v : Value)
    (ho : h.objs a = none) : h.setOwn a k v = h := by
  cases h with
  | mk objs nxt =>
    simp only [Heap.setOwn]
    congr 1
    funext b
    by_cases hb : b = a
    · subst hb; simp_all
    · simp [hb]

theorem getOwn_setOwn_self (h : Heap) (a : Addr) (k : String) (v : Value) (o : Obj)
    (ho : h.objs a = some o) : (h.setOwn a k v).getOwn a k = some v := by
  simp [Heap.getOwn, objs_setOwn_self h a k v o ho, getProps_setProps_self]

theorem getOwn_setOwn_ne_addr (h : Heap) (a : Addr) (k : String) (v : Value) (b : Addr)
    (k' : String) (hne : b ≠ a) : (h.setOwn a k v).getOwn b k' = h.getOwn b k' := by
  simp [Heap.getOwn, objs_setOwn_ne h a k v b hne]

theorem getOwn_setOwn_ne_key (h : Heap) (a : Addr) (k : String) (v : Value)
    (k' : String) (hne : k' ≠ k) : (h.setOwn a k v).getOwn a k' = h.getOwn a k' := by
  cases ho : h.objs a with
  | none => simp [Heap.getOwn, Heap.setOwn, ho]
  | some o => simp [Heap.getOwn, objs_setOwn_self h a k v o ho, ho,
      getProps_setProps_ne o.props k k' v hne]

theorem next_alloc (h : Heap) (p : Value) (c : Option Code) :
    (h.alloc p c).1.next = h.next + 1 := rfl

theorem snd_alloc (h : Heap) (p : Value) (c : Option Code) :
    (h.alloc p c).2 = h.next := rfl

theorem objs_alloc_self (h : Heap) (p : Value) (c : Option Code) :
    (h.alloc p c).1.objs h.next = some { props := [], proto := p, code := c } := by
  simp [Heap.alloc]

theorem objs_alloc_ne (h : Heap) (p : Value) (c : Option Code) (b : Addr)
    (hne : b ≠ h.next) : (h.alloc p c).1.objs b = h.objs b := by
  simp [Heap.alloc, hne]

theorem wf_objs_next (h : Heap) (hwf : h.wf) : h.objs h.next = none := by
  cases ho : h.objs h.next with
  | none => rfl
  | some o => exact absurd (hwf.1 h.next (by simp [ho])) (lt_irrefl _)

theorem wf_setOwn (h : Heap) (a : Addr) (k : String) (v : Value) (hwf : h.wf) :
    (h.setOwn a k v).wf := by
  constructor
  · intro b hb
    rw [next_setOwn]
    apply hwf.1
    by_cases hba : b = a
    · subst hba
      cases ho : h.objs b
      · simp [Heap.setOwn, ho] at hb
      · simp [ho]
    · rwa [objs_setOwn_ne h a k v b hba] at hb
  · intro b o hb
    by_cases hba : b = a
    · subst hba
      cases ho : h.objs b with
      | none => simp [Heap.setOwn, ho] at hb
      | some o0 =>
        rw [objs_setOwn_self h b k v o0 ho] at hb
        cases hb
        exact nodup_setProps _ _ _ (hwf.2 b o0 ho)
    · rw [objs_setOwn_ne h a k v b hba] at hb
      exact hwf.2 b o hb

theorem wf_alloc (h : Heap) (p : Value) (c : Option Code) (hwf : h.wf) :
    (h.alloc p c).1.wf := by
  constructor
  · intro b hb
    rw [next_alloc]
    by_cases hbn : b = h.next
    · subst hbn; exact Nat.lt_succ_self _
    · rw [objs_alloc_ne h p c b hbn] at hb
      exact Nat.lt_succ_of_lt (hwf.1 b hb)
  · intro b o hb
    by_cases hbn : b = h.next
    · subst hbn
      rw [objs_alloc_self] at hb
      cases hb
      simp
    · rw [objs_alloc_ne h p c b hbn] at hb
      exact hwf.2 b o hb

/-- Evolution invariant of every embedded operation: from a well-formed
heap, the allocation pointer only grows, every live object stays live with
its prototype and code unchanged (only own properties ever mutate), and
well-formedness is preserved. -/
def Pres (h h' : Heap) : Prop :=
  h.wf → h.next ≤ h'.next ∧
    (∀ a o, h.objs a = some o →
      ∃ o', h'.objs a = some o' ∧ o'.proto = o.proto ∧ o'.code = o.code) ∧
    h'.wf

theorem Pres.refl (h : Heap) : Pres h h :=
  fun hwf => ⟨le_refl _, fun _ o ho => ⟨o, ho, rfl, rfl⟩, hwf⟩

theorem Pres.trans {h h' h'' : Heap} (p1 : Pres h h') (p2 : Pres h' h'') :
    Pres h h'' := by
  intro hwf
  obtain ⟨hn1, hl1, hw1⟩ := p1 hwf
  obtain ⟨hn2, hl2, hw2⟩ := p2 hw1
  refine ⟨le_trans hn1 hn2, ?_, hw2⟩
  intro a o ho
  obtain ⟨o1, ho1, hp1, hc1⟩ := hl1 a o ho
  obtain ⟨o2, ho2, hp2, hc2⟩ := hl2 a o1 ho1
  exact ⟨o2, ho2, hp2.trans hp1, hc2.trans hc1⟩

theorem pres_setOwn (h : Heap) (a : Addr) (k : String) (v : Value) :
    Pres h (h.setOwn a k v) := by
  intro hwf
  refine ⟨le_of_eq (next_setOwn h a k v).symm, ?_, wf_setOwn h a k v hwf⟩
  intro b o hb
  by_cases hba : b = a
  · subst hba
    exact ⟨_, objs_setOwn_self h b k v o hb, rfl, rfl⟩
  · exact ⟨o, by rw [objs_setOwn_ne h a k v b hba, hb], rfl, rfl⟩

theorem pres_alloc (h : Heap) (p : Value) (c : Option Code) :
    Pres h (h.alloc p c).1 := by
  intro hwf
  refine ⟨by rw [next_alloc]; exact Nat.le_succ _, ?_, wf_alloc h p c hwf⟩
  intro b o hb
  have hbn : b ≠ h.next := by
    intro he; subst he; rw [wf_objs_next h hwf] at hb; cases hb
  exact ⟨o, by rw [objs_alloc_ne h p c b hbn, hb], rfl, rfl⟩

theorem pres_setMany (dst : Addr) (ps : List (String × Value)) :
    ∀ h : Heap, Pres h (setMany h dst ps) := by
  induction ps with
  | nil => intro h; exact Pres.refl h
  | cons p rest ih =>
    intro h
    exact Pres.trans (pres_setOwn h dst p.1 p.2) (ih (h.setOwn dst p.1 p.2))

theorem pres_copyOwn (h : Heap) (src dst : Addr) : Pres h (copyOwn h src dst) := by
  unfold copyOwn
  cases h.objs src with
  | none => exact Pres.refl h
  | some o => exact pres_setMany dst o.props h

theorem pres_runTask : ∀ (fuel : Nat) (t : Task) (h : Heap),
    Pres h (Res.heap (runTask fuel t h)) := by
  intro fuel
  induction fuel with
  | zero => intro t h; exact Pres.refl h
  | succ fuel ih =>
    intro t h
    have ihh : ∀ (t' : Task) (h' : Heap) (r : Res), runTask fuel t' h' = r →
        Pres h' r.heap := by
      intro t' h' r hr
      have := ih t' h'; rw [hr] at this; exact this
    match t with
    | .call fnV thisA args =>
      cases hc : callableCode h fnV with
      | none => simp only [runTask, hc]; exact Pres.refl h
      | some c =>
        cases c with
        | noop => simp only [runTask, hc]; exact Pres.refl h
        | user body =>
          simp only [runTask, hc]
          split <;> (rename_i h' v heq; have hp := ihh _ _ _ heq; exact hp)
        | parentInit =>
          simp only [runTask, hc]
          split
          · rename_i h' e heq; exact ihh _ _ _ heq
          · rename_i h' pV heq
            have p1 : Pres h h' := ihh _ _ _ heq
            split
            · rename_i pA
              split
              · rename_i h2 e heq2; exact Pres.trans p1 (ihh _ _ _ heq2)
              · rename_i h2 v2 heq2
                exact Pres.trans p1 (Pres.trans (ihh _ _ _ heq2)
                  (Pres.trans (pres_copyOwn h2 pA thisA)
                    (pres_setOwn (copyOwn h2 pA thisA) thisA "parent" (.ref pA))))
            · exact p1
    | .newObj fnV args =>
      cases hc : callableCode h fnV with
      | none => simp only [runTask, hc]; exact Pres.refl h
      | some c =>
        simp only [runTask, hc]
        have pa := pres_alloc h (getProp h fnV "prototype") none
        split
        · rename_i h2 e heq
          exact Pres.trans pa (ihh _ _ _ heq)
        · rename_i h2 r heq
          have p2 := Pres.trans pa (ihh _ _ _ heq)
          split
          · exact p2
          · exact p2
    | .seq thisA args [] => exact Pres.refl h
    | .seq thisA args (s :: rest) =>
      cases s with
      | assignThis k arg =>
        simp only [runTask]
        exact Pres.trans (pres_setOwn h thisA k (evalArg h thisA args arg))
          (ih (.seq thisA args rest) (h.setOwn thisA k (evalArg h thisA args arg)))
      | callParent argEs =>
        simp only [runTask]
        split
        · rename_i h' e heq; exact ihh _ _ _ heq
        · rename_i h' v heq
          exact Pres.trans (ihh _ _ _ heq) (ih (.seq thisA args rest) h')

theorem pres_live {h h' : Heap} (p : Pres h h') (hwf : h.wf) {a : Addr}
    (ha : (h.objs a).isSome) : (h'.objs a).isSome := by
  obtain ⟨o, ho⟩ := Option.isSome_iff_exists.mp ha
  obtain ⟨o', ho', _, _⟩ := (p hwf).2.1 a o ho
  simp [ho']

theorem getProp_own (h : Heap) (a : Addr) (o : Obj) (k : String) (v : Value)
    (ho : h.objs a = some o) (hk : getProps o.props k = some v) :
    getProp h (.ref a) k = v := by
  unfold getProp
  simp [getPropFuel, ho, hk]

theorem next_setMany (dst : Addr) (ps : List (String × Value)) :
    ∀ h : Heap, (setMany h dst ps).next = h.next := by
  induction ps with
  | nil => intro h; rfl
  | cons p rest ih =>
    intro h
    show (setMany (h.setOwn dst p.1 p.2) dst rest).next = h.next
    rw [ih, next_setOwn]

theorem objs_setMany_ne (dst : Addr) (ps : List (String × Value)) (b : Addr)
    (hne : b ≠ dst) : ∀ h : Heap, (setMany h dst ps).objs b = h.objs b := by
  induction ps with
  | nil => intro h; rfl
  | cons p rest ih =>
    intro h
    show (setMany (h.setOwn dst p.1 p.2) dst rest).objs b = h.objs b
    rw [ih, objs_setOwn_ne h dst p.1 p.2 b hne]

theorem isSome_setOwn (h : Heap) (a : Addr) (k : String) (v : Value) (b : Addr)
    (hb : (h.objs b).isSome) : ((h.setOwn a k v).objs b).isSome := by
  by_cases hba : b = a
  · subst hba
    obtain ⟨o, ho⟩ := Option.isSome_iff_exists.mp hb
    simp [objs_setOwn_self h b k v o ho]
  · rwa [objs_setOwn_ne h a k v b hba]

theorem getOwn_setMany_none (dst : Addr) (ps : List (String × Value)) (k : String)
    (hk : getProps ps k = none) :
    ∀ h : Heap, (setMany h dst ps).getOwn dst k = h.getOwn dst k := by
  induction ps with
  | nil => intro h; rfl
  | cons p rest ih =>
    intro h
    have hpk : ¬p.1 = k := by
      intro he
      rw [getProps, if_pos he] at hk
      cases hk
    have hrest : getProps rest k = none := by
      rwa [getProps, if_neg hpk] at hk
    show (setMany (h.setOwn dst p.1 p.2) dst rest).getOwn dst k = h.getOwn dst k
    rw [ih hrest, getOwn_setOwn_ne_key h dst p.1 p.2 k (fun he => hpk he.symm)]

theorem getOwn_setMany_mem (dst : Addr) (ps : List (String × Value)) (k : String)
    (v : Value) (hnd : (ps.map Prod.fst).Nodup) (hk : getProps ps k = some v) :
    ∀ h : Heap, (h.objs dst).isSome → (setMany h dst ps).getOwn dst k = some v := by
  induction ps with
  | nil => intro h _; cases hk
  | cons p rest ih =>
    intro h hlive
    show (setMany (h.setOwn dst p.1 p.2) dst rest).getOwn dst k = some v
    by_cases hpk : p.1 = k
    · rw [getProps, if_pos hpk] at hk
      cases hk
      have hrest : getProps rest k = none := by
        rw [getProps_eq_none]
        rw [List.map_cons, List.nodup_cons] at hnd
        rw [hpk] at hnd
        exact hnd.1
      rw [getOwn_setMany_none dst rest k hrest]
      obtain ⟨o, ho⟩ := Option.isSome_iff_exists.mp hlive
      rw [hpk]
      exact getOwn_setOwn_self h dst k p.2 o ho
    · rw [getProps, if_neg hpk] at hk
      rw [List.map_cons, List.nodup_cons] at hnd
      exact ih hnd.2 hk (h.setOwn dst p.1 p.2) (isSome_setOwn h dst p.1 p.2 dst hlive)

theorem copyOwn_getOwn (h : Heap) (src dst : Addr) (_hne : dst ≠ src)
    (hwf : h.wf) (hd : (h.objs dst).isSome) (k : String) (v : Value)
    (hv : h.getOwn src k = some v) : (copyOwn h src dst).getOwn dst k = some v := by
  unfold copyOwn
  cases ho : h.objs src with
  | none => rw [Heap.getOwn, ho] at hv; cases hv
  | some o =>
    rw [Heap.getOwn, ho] at hv
    exact getOwn_setMany_mem dst o.props k v (hwf.2 src o ho) hv h hd

theorem objs_copyOwn_ne (h : Heap) (src dst b : Addr) (hne : b ≠ dst) :
    (copyOwn h src dst).objs b = h.objs b := by
  unfold copyOwn
  cases h.objs src with
  | none => rfl
  | some o => exact objs_setMany_ne dst o.props b hne h

theorem typeOf_plain (h : Heap) (a : Addr) (o : Obj) (ho : h.objs a = some o)
    (hc : o.code = none) : typeOf h (.ref a) = "object" := by
  simp [typeOf, ho, hc]

theorem typeOf_fn (h : Heap) (a : Addr) (o : Obj) (c : Code) (ho : h.objs a = some o)
    (hc : o.code = some c) : typeOf h (.ref a) = "function" := by
  simp [typeOf, ho, hc]

theorem getProp_prim (h : Heap) (v : Value) (k : String) (hv : ∀ a, v ≠ .ref a) :
    getProp h v k = .undef := by
  unfold getProp
  cases v with
  | ref a => exact absurd rfl (hv a)
  | undef => rfl
  | vnull => rfl
  | num n => rfl
  | str s => rfl
  | bool b => rfl

theorem typeOf_dangling (h : Heap) (a : Addr) (ho : h.objs a = none) :
    typeOf h (.ref a) = "object" := by
  simp [typeOf, ho]

theorem typeOf_fn_inv (h : Heap) (v : Value) (hty : typeOf h v = "function") :
    ∃ a o c, v = .ref a ∧ h.objs a = some o ∧ o.code = some c := by
  cases v with
  | undef => exact absurd (show ("undefined" : String) = "function" from hty) (by decide)
  | vnull => exact absurd (show ("object" : String) = "function" from hty) (by decide)
  | num n => exact absurd (show ("number" : String) = "function" from hty) (by decide)
  | str s => exact absurd (show ("string" : String) = "function" from hty) (by decide)
  | bool b => exact absurd (show ("boolean" : String) = "function" from hty) (by decide)
  | ref a =>
    cases ho : h.objs a with
    | none =>
      rw [typeOf_dangling h a ho] at hty
      exact absurd hty (by decide)
    | some o =>
      cases hc : o.code with
      | none =>
        rw [typeOf_plain h a o ho hc] at hty
        exact absurd hty (by decide)
      | some c => exact ⟨a, o, c, rfl, ho, hc⟩

theorem ConstructorFn_fnid (h : Heap) (v : Value) (hty : typeOf h v = "function") :
    ConstructorFn h v = .ok h v := by
  simp only [ConstructorFn, hty]
  rfl

theorem ConstructorFn_undef (h : Heap) :
    ConstructorFn h .undef = .err h (.refError (ctorMsg ++ "undefined")) := rfl

theorem ConstructorFn_null (h : Heap) :
    ConstructorFn h .vnull = .err h (.typeError (ctorMsg ++ "null")) := rfl

theorem ConstructorFn_prim (h : Heap) (v : Value) (h1 : typeOf h v ≠ "function")
    (h2 : typeOf h v ≠ "undefined") (h3 : typeOf h v ≠ "object") :
    ConstructorFn h v = .err h (.typeError (ctorMsg ++
      (typeOf h v ++ " [" ++ display v ++ "]"))) := by
  simp only [ConstructorFn]
  rw [if_neg h1, if_neg h2, if_pos (Or.inl h3), if_pos h3]

theorem ConstructorFn_obj_step (h : Heap) (a : Addr)
    (hty : typeOf h (.ref a) = "object") :
    ConstructorFn h (.ref a) =
      (let st :=
        if h.hasOwn a "constructor" then (h, (h.getOwn a "constructor").getD .undef)
        else
          let fr := h.alloc .undef (some .noop)
          (fr.1, Value.ref fr.2)
      match assign st.1 st.2 "prototype" (.ref a) with
      | .err h2 e => .err h2 e
      | .ok h2 _ =>
        match assign h2 (getProp h2 st.2 "prototype") "constructor" st.2 with
        | .err h3 e => .err h3 e
        | .ok h3 _ => .ok h3 st.2) := by
  simp only [ConstructorFn, hty]
  rw [if_neg (by decide : ¬("object" : String) = "function"),
    if_neg (by decide : ¬("object" : String) = "undefined"),
    if_neg (by simp : ¬(("object" : String) ≠ "object" ∨ Value.ref a = Value.vnull))]

theorem ConstructorFn_obj_noctor (h : Heap) (a : Addr)
    (hty : typeOf h (.ref a) = "object")
    (hget : h.getOwn a "constructor" = none) :
    ConstructorFn h (.ref a) =
      .ok (((h.alloc .undef (some .noop)).1.setOwn h.next "prototype" (.ref a)).setOwn a
            "constructor" (.ref h.next)) (.ref h.next) := by
  have h2objs : ((h.alloc .undef (some .noop)).1.setOwn h.next "prototype" (.ref a)).objs h.next
      = some { props := [("prototype", .ref a)], proto := .undef, code := some .noop } := by
    have := objs_setOwn_self (h.alloc .undef (some .noop)).1 h.next "prototype" (.ref a)
      { props := [], proto := .undef, code := some .noop } (objs_alloc_self h .undef (some .noop))
    simpa [setProps] using this
  have hgp : getProp ((h.alloc .undef (some .noop)).1.setOwn h.next "prototype" (.ref a))
      (.ref h.next) "prototype" = .ref a :=
    getProp_own _ _ _ _ _ h2objs (by simp [getProps])
  rw [ConstructorFn_obj_step h a hty]
  simp only [Heap.hasOwn, hget, Option.isSome_none, Bool.false_eq_true, if_false,
    assign, snd_alloc, hgp]

theorem ConstructorFn_obj_ctor (h : Heap) (a : Addr) (cA : Addr) (co : Obj)
    (hty : typeOf h (.ref a) = "object")
    (hget : h.getOwn a "constructor" = some (.ref cA))
    (hcl : h.objs cA = some co) :
    ConstructorFn h (.ref a) =
      .ok ((h.setOwn cA "prototype" (.ref a)).setOwn a "constructor" (.ref cA)) (.ref cA) := by
  have h2objs : (h.setOwn cA "prototype" (.ref a)).objs cA
      = some { co with props := setProps co.props "prototype" (.ref a) } :=
    objs_setOwn_self h cA "prototype" (.ref a) co hcl
  have hgp : getProp (h.setOwn cA "prototype" (.ref a)) (.ref cA) "prototype" = .ref a :=
    getProp_own _ _ _ _ _ h2objs (getProps_setProps_self _ _ _)
  rw [ConstructorFn_obj_step h a hty]
  simp only [Heap.hasOwn, hget, Option.isSome_some, if_true, Option.getD_some, assign, hgp]

theorem getProp_dangling (h : Heap) (a : Addr) (k : String) (ho : h.objs a = none) :
    getProp h (.ref a) k = .undef := by
  unfold getProp
  simp [getPropFuel, ho]

theorem ctorMsg_append_ne (s : String) : ¬(ctorMsg ++ s = extendCountMsg) := by
  intro hcontra
  have hl := congrArg String.length hcontra
  rw [String.length_append] at hl
  have h1 : ctorMsg.length = 83 := by decide
  have h2 : extendCountMsg.length = 62 := by decide
  omega

theorem ConstructorFn_shape (h : Heap) (v : Value) :
    (∃ e, ConstructorFn h v = .err h e ∧ e ≠ .typeError extendCountMsg) ∨
    (∃ h' cA, ConstructorFn h v = .ok h' (.ref cA) ∧ (h'.objs cA).isSome ∧ Pres h h') := by
  have hprim : ∀ (w : Value), typeOf h w ≠ "function" → typeOf h w ≠ "undefined" →
      typeOf h w ≠ "object" →
      (∃ e, ConstructorFn h w = .err h e ∧ e ≠ .typeError extendCountMsg) := by
    intro w hw1 hw2 hw3
    refine ⟨_, ConstructorFn_prim h w hw1 hw2 hw3, ?_⟩
    intro heq
    exact ctorMsg_append_ne _ (JsError.typeError.inj heq)
  have hobj : ∀ (a : Addr), typeOf h (.ref a) = "object" →
      (∃ e, ConstructorFn h (.ref a) = .err h e ∧ e ≠ .typeError extendCountMsg) ∨
      (∃ h' cA, ConstructorFn h (.ref a) = .ok h' (.ref cA) ∧ (h'.objs cA).isSome ∧
        Pres h h') := by
    intro a hty
    cases hget : h.getOwn a "constructor" with
    | none =>
      right
      refine ⟨_, h.next, ConstructorFn_obj_noctor h a hty hget, ?_, ?_⟩
      · apply isSome_setOwn
        have := objs_setOwn_self (h.alloc .undef (some .noop)).1 h.next "prototype" (.ref a)
          { props := [], proto := .undef, code := some .noop } (objs_alloc_self h .undef (some .noop))
        simp [this]
      · exact Pres.trans (pres_alloc h .undef (some .noop))
          (Pres.trans (pres_setOwn _ h.next "prototype" (.ref a))
            (pres_setOwn _ a "constructor" (.ref h.next)))
    | some c =>
      cases c with
      | ref cA =>
        cases hcl : h.objs cA with
        | some co =>
          right
          refine ⟨_, cA, ConstructorFn_obj_ctor h a cA co hty hget hcl, ?_, ?_⟩
          · apply isSome_setOwn
            simp [objs_setOwn_self h cA "prototype" (.ref a) co hcl]
          · exact Pres.trans (pres_setOwn h cA "prototype" (.ref a))
              (pres_setOwn _ a "constructor" (.ref cA))
        | none =>
          left
          rw [ConstructorFn_obj_step h a hty]
          simp only [Heap.hasOwn, hget, Option.isSome_some, if_true, Option.getD_some, assign,
            setOwn_dangling h cA "prototype" (.ref a) hcl, getProp_dangling h cA "prototype" hcl]
          exact ⟨_, rfl, by decide⟩
      | undef =>
        left
        rw [ConstructorFn_obj_step h a hty]
        simp only [Heap.hasOwn, hget, Option.isSome_some, if_true, Option.getD_some, assign]
        exact ⟨_, rfl, by decide⟩
      | vnull =>
        left
        rw [ConstructorFn_obj_step h a hty]
        simp only [Heap.hasOwn, hget, Option.isSome_some, if_true, Option.getD_some, assign]
        exact ⟨_, rfl, by decide⟩
      | num n =>
        left
        rw [ConstructorFn_obj_step h a hty]
        simp only [Heap.hasOwn, hget, Option.isSome_some, if_true, Option.getD_some, assign,
          getProp_prim h (.num n) "prototype" (by intro b hb; cases hb)]
        exact ⟨_, rfl, by decide⟩
      | str s =>
        left
        rw [ConstructorFn_obj_step h a hty]
        simp only [Heap.hasOwn, hget, Option.isSome_some, if_true, Option.getD_some, assign,
          getProp_prim h (.str s) "prototype" (by intro b hb; cases hb)]
        exact ⟨_, rfl, by decide⟩
      | bool b =>
        left
        rw [ConstructorFn_obj_step h a hty]
        simp only [Heap.hasOwn, hget, Option.isSome_some, if_true, Option.getD_some, assign,
          getProp_prim h (.bool b) "prototype" (by intro b hb; cases hb)]
        exact ⟨_, rfl, by decide⟩
  cases v with
  | undef =>
    left
    exact ⟨_, ConstructorFn_undef h, by decide⟩
  | vnull =>
    left
    exact ⟨_, ConstructorFn_null h, by decide⟩
  | num n =>
    exact Or.inl (hprim (.num n) (show ("number" : String) ≠ "function" by decide)
      (show ("number" : String) ≠ "undefined" by decide)
      (show ("number" : String) ≠ "object" by decide))
  | str s =>
    exact Or.inl (hprim (.str s) (show ("string" : String) ≠ "function" by decide)
      (show ("string" : String) ≠ "undefined" by decide)
      (show ("string" : String) ≠ "object" by decide))
  | bool b =>
    exact Or.inl (hprim (.bool b) (show ("boolean" : String) ≠ "function" by decide)
      (show ("boolean" : String) ≠ "undefined" by decide)
      (show ("boolean" : String) ≠ "object" by decide))
  | ref a =>
    cases ho : h.objs a with
    | none => exact hobj a (typeOf_dangling h a ho)
    | some o =>
      cases hc : o.code with
      | none => exact hobj a (typeOf_plain h a o ho hc)
      | some c =>
        right
        exact ⟨h, a, ConstructorFn_fnid h (.ref a) (typeOf_fn h a o c ho hc),
          by simp [ho], Pres.refl h⟩

theorem ConstructorFn_err_facts (h : Heap) (v : Value) (h' : Heap) (e : JsError)
    (he : ConstructorFn h v = .err h' e) : h' = h ∧ e ≠ .typeError extendCountMsg := by
  rcases ConstructorFn_shape h v with ⟨e0, he0, hne0⟩ | ⟨h0, cA, hok, _, _⟩
  · rw [he] at he0
    cases he0
    exact ⟨rfl, hne0⟩
  · rw [he] at hok
    cases hok

theorem ConstructorFn_ok_facts (h : Heap) (v : Value) (h' : Heap) (w : Value)
    (hok : ConstructorFn h v = .ok h' w) :
    ∃ cA, w = .ref cA ∧ (h'.objs cA).isSome ∧ Pres h h' := by
  rcases ConstructorFn_shape h v with ⟨e0, he0, _⟩ | ⟨h0, cA, hok0, hl, hp⟩
  · rw [hok] at he0
    cases he0
  · rw [hok] at hok0
    cases hok0
    exact ⟨cA, rfl, hl, hp⟩

theorem normalizeSpec_ok_facts (h : Heap) (v : Value) (h' : Heap) (w : Value)
    (hok : normalizeSpec h v = .ok h' w) :
    ∃ cA, w = .ref cA ∧ (h'.objs cA).isSome ∧ Pres h h' := by
  unfold normalizeSpec at hok
  split at hok
  · exact ConstructorFn_ok_facts h v h' w hok
  · rename_i hty
    cases hok
    rw [not_not] at hty
    obtain ⟨a, o, c, hv, ho, hc⟩ := typeOf_fn_inv h v hty
    exact ⟨a, hv, by simp [ho], Pres.refl h⟩

theorem normalizeSpec_err_facts (h : Heap) (v : Value) (h' : Heap) (e : JsError)
    (he : normalizeSpec h v = .err h' e) : h' = h ∧ e ≠ .typeError extendCountMsg := by
  unfold normalizeSpec at he
  split at he
  · exact ConstructorFn_err_facts h v h' e he
  · cases he

theorem targetNorm_ok_facts (h0 h1 : Heap) (v : Value) (h2 : Heap) (w : Value)
    (hwf0 : h0.wf) (hp01 : Pres h0 h1) (hok : targetNorm h0 h1 v = .ok h2 w) :
    ∃ cA, w = .ref cA ∧ (h2.objs cA).isSome ∧ Pres h1 h2 := by
  unfold targetNorm at hok
  split at hok
  · exact ConstructorFn_ok_facts h1 v h2 w hok
  · rename_i hty
    cases hok
    rw [not_not] at hty
    obtain ⟨a, o, c, hv, ho, hc⟩ := typeOf_fn_inv h0 v hty
    exact ⟨a, hv, pres_live hp01 hwf0 (by simp [ho]), Pres.refl _⟩

theorem targetNorm_err_facts (h0 h1 : Heap) (v : Value) (h2 : Heap) (e : JsError)
    (he : targetNorm h0 h1 v = .err h2 e) : h2 = h1 ∧ e ≠ .typeError extendCountMsg := by
  unfold targetNorm at he
  split at he
  · exact ConstructorFn_err_facts h1 v h2 e he
  · cases he

theorem next_copyOwn (h : Heap) (src dst : Addr) : (copyOwn h src dst).next = h.next := by
  unfold copyOwn
  cases h.objs src with
  | none => rfl
  | some o => exact next_setMany dst o.props h

theorem objs_setMany_shape (dst : Addr) (ps : List (String × Value)) :
    ∀ (h : Heap) (o : Obj), h.objs dst = some o →
      ∃ props', (setMany h dst ps).objs dst = some ⟨props', o.proto, o.code⟩ := by
  induction ps with
  | nil =>
    intro h o ho
    exact ⟨o.props, by rw [show setMany h dst [] = h from rfl, ho]⟩
  | cons p rest ih =>
    intro h o ho
    have h1 := objs_setOwn_self h dst p.1 p.2 o ho
    obtain ⟨props', hp⟩ := ih (h.setOwn dst p.1 p.2) _ h1
    exact ⟨props', hp⟩

theorem objs_copyOwn_shape (h : Heap) (src dst : Addr) (o : Obj)
    (ho : h.objs dst = some o) :
    ∃ props', (copyOwn h src dst).objs dst = some ⟨props', o.proto, o.code⟩ := by
  unfold copyOwn
  cases h.objs src with
  | none => exact ⟨o.props, by rw [ho]⟩
  | some so => exact objs_setMany_shape dst so.props h o ho

theorem runTask_new_noop (h : Heap) (fA : Addr) (o : Obj)
    (ho : h.objs fA = some o) (hc : o.code = some .noop) (hne : fA ≠ h.next) :
    runTask 2 (.newObj (.ref fA) []) h =
      .ok (h.alloc (getProp h (.ref fA) "prototype") none).1 (.ref h.next) := by
  have hcc : callableCode h (.ref fA) = some Code.noop := by
    simp [callableCode, ho, hc]
  have hcc1 : callableCode (h.alloc (getProp h (.ref fA) "prototype") none).1 (.ref fA)
      = some Code.noop := by
    simp [callableCode, objs_alloc_ne h _ none fA hne, ho, hc]
  show runTask (1 + 1) (.newObj (.ref fA) []) h = _
  simp only [runTask, hcc, snd_alloc]
  show (match runTask (0 + 1) (.call (.ref fA) h.next [])
      (h.alloc (getProp h (.ref fA) "prototype") none).1 with
    | .err h2 e => Res.err h2 e
    | .ok h2 r => match r with
      | .ref b => Res.ok h2 (.ref b)
      | _ => Res.ok h2 (.ref h.next)) = _
  simp only [runTask, hcc1]

/-- Proof-local restatement of the tail of `extendCore` after both
normalizations succeeded with references `nsA` (normalized source) and `ncA`
(normalized target): the final heap together with the addresses of the link
constructor `F`, the new prototype, and the `parent` initializer function.
`extendCore_eq_build` proves it equal to what `extendCore` computes. -/
def extendBuild (h2 : Heap) (targetType : String) (nsA ncA : Addr) :
    Heap × Addr × Addr × Addr :=
  let fr := h2.alloc .undef (some .noop)
  let h4 := fr.1.setOwn ncA "parent" (.ref fr.2)
  let h5 := h4.setOwn fr.2 "prototype" (getProp h4 (.ref nsA) "prototype")
  let fr6 := h5.alloc (getProp h5 (.ref fr.2) "prototype") none
  let h7 :=
    if targetType = "object" then
      match getProp fr6.1 (.ref ncA) "prototype" with
      | .ref protoA => copyOwn fr6.1 protoA fr6.2
      | _ => fr6.1
    else fr6.1
  let h8 := h7.setOwn fr6.2 "constructor" (.ref ncA)
  let fr9 := h8.alloc .undef (some .parentInit)
  let h10 := fr9.1.setOwn fr6.2 "parent" (.ref fr9.2)
  (h10.setOwn ncA "prototype" (.ref fr6.2), fr.2, fr6.2, fr9.2)

theorem extendCore_eq_build (h0 : Heap) (source target : Value) (h1 h2 : Heap)
    (nsA ncA : Addr)
    (hs : normalizeSpec h0 source = .ok h1 (.ref nsA))
    (ht : targetNorm h0 h1 target = .ok h2 (.ref ncA))
    (hncLt : ncA < h2.next) :
    extendCore h0 source target =
      .ok (extendBuild h2 (typeOf h0 target) nsA ncA).1 (.ref ncA) := by
  have hobj4 : ((h2.alloc Value.undef (some Code.noop)).1.setOwn ncA "parent"
      (.ref h2.next)).objs h2.next
      = some { props := [], proto := .undef, code := some .noop } := by
    rw [objs_setOwn_ne _ _ _ _ _ (Nat.ne_of_gt hncLt)]
    exact objs_alloc_self h2 .undef (some .noop)
  have hobj5 := objs_setOwn_self _ h2.next "prototype"
    (getProp ((h2.alloc Value.undef (some Code.noop)).1.setOwn ncA "parent"
      (.ref h2.next)) (.ref nsA) "prototype") _ hobj4
  have hne5 : h2.next ≠ (((h2.alloc Value.undef (some Code.noop)).1.setOwn ncA "parent"
      (.ref h2.next)).setOwn h2.next "prototype"
      (getProp ((h2.alloc Value.undef (some Code.noop)).1.setOwn ncA "parent"
        (.ref h2.next)) (.ref nsA) "prototype")).next := by
    show h2.next ≠ h2.next + 1
    exact Nat.ne_of_lt (Nat.lt_succ_self _)
  have hrun := runTask_new_noop _ h2.next _ hobj5 rfl hne5
  unfold extendCore extendBuild
  simp only [hs, ht, assign, snd_alloc, hrun]

theorem extendBuild_facts (h2 : Heap) (tt : String) (nsA ncA : Addr)
    (hwf2 : h2.wf) (hncLive : (h2.objs ncA).isSome) (hnsLive : (h2.objs nsA).isSome) :
    (extendBuild h2 tt nsA ncA).2.1 = h2.next ∧
    (extendBuild h2 tt nsA ncA).2.2.1 = h2.next + 1 ∧
    (extendBuild h2 tt nsA ncA).2.2.2 = h2.next + 2 ∧
    Pres h2 (extendBuild h2 tt nsA ncA).1 ∧
    (extendBuild h2 tt nsA ncA).1.getOwn ncA "parent" = some (.ref h2.next) ∧
    (extendBuild h2 tt nsA ncA).1.getOwn ncA "prototype" = some (.ref (h2.next + 1)) ∧
    (extendBuild h2 tt nsA ncA).1.getOwn (h2.next + 1) "constructor" = some (.ref ncA) ∧
    (extendBuild h2 tt nsA ncA).1.getOwn (h2.next + 1) "parent" = some (.ref (h2.next + 2)) ∧
    callableCode (extendBuild h2 tt nsA ncA).1 (.ref (h2.next + 2)) = some .parentInit ∧
    (∃ fo, (extendBuild h2 tt nsA ncA).1.objs h2.next = some fo ∧
      fo.code = some Code.noop ∧
      getProps fo.props "prototype" = some (getProp
        ((h2.alloc .undef (some .noop)).1.setOwn ncA "parent" (.ref h2.next))
        (.ref nsA) "prototype")) ∧
    (∃ po, (extendBuild h2 tt nsA ncA).1.objs (h2.next + 1) = some po ∧
      po.code = none ∧
      po.proto = getProp
        ((h2.alloc .undef (some .noop)).1.setOwn ncA "parent" (.ref h2.next))
        (.ref nsA) "prototype" ∧
      (tt ≠ "object" → ∀ k, k ≠ "constructor" → k ≠ "parent" →
        getProps po.props k = none)) ∧
    (nsA ≠ ncA → (extendBuild h2 tt nsA ncA).1.getOwn nsA "prototype" =
      h2.getOwn nsA "prototype") := by
  have hncLt : ncA < h2.next := hwf2.1 ncA hncLive
  have hnsLt : nsA < h2.next := hwf2.1 nsA hnsLive
  obtain ⟨ncO, hncO⟩ := Option.isSome_iff_exists.mp hncLive
  unfold extendBuild
  simp only [snd_alloc]
  set h3 := (h2.alloc Value.undef (some Code.noop)).1 with hh3
  set h4 := h3.setOwn ncA "parent" (.ref h2.next) with hh4
  set pv := getProp h4 (.ref nsA) "prototype" with hpv
  set h5 := h4.setOwn h2.next "prototype" pv with hh5
  set np := getProp h5 (.ref h2.next) "prototype" with hnp
  set h6 := (h5.alloc np none).1 with hh6
  set h7 := (if tt = "object" then
      match getProp h6 (.ref ncA) "prototype" with
      | Value.ref protoA => copyOwn h6 protoA h5.next
      | _ => h6
    else h6) with hh7
  set h8 := h7.setOwn h5.next "constructor" (.ref ncA) with hh8
  set h9 := (h8.alloc Value.undef (some Code.parentInit)).1 with hh9
  set h10 := h9.setOwn h5.next "parent" (.ref h8.next) with hh10
  set hF := h10.setOwn ncA "prototype" (.ref h5.next) with hhF
  -- allocation-pointer bookkeeping
  have hnext5 : h5.next = h2.next + 1 := rfl
  have hnext6 : h6.next = h2.next + 2 := rfl
  have h7next : h7.next = h6.next := by
    rw [hh7]
    split
    · split
      · exact next_copyOwn _ _ _
      · rfl
    · rfl
  have h8next : h8.next = h2.next + 2 := by
    rw [hh8, next_setOwn, h7next, hnext6]
  -- address inequalities
  have hne_N_nc : h2.next ≠ ncA := Nat.ne_of_gt hncLt
  have hne_nc_N : ncA ≠ h2.next := Nat.ne_of_lt hncLt
  have hne_nc_5 : ncA ≠ h5.next := by
    rw [hnext5]; exact Nat.ne_of_lt (Nat.lt_succ_of_lt hncLt)
  have hne_nc_8 : ncA ≠ h8.next := by
    rw [h8next]; exact Nat.ne_of_lt (Nat.lt_succ_of_lt (Nat.lt_succ_of_lt hncLt))
  have hne_N_5 : h2.next ≠ h5.next := by
    rw [hnext5]; exact Nat.ne_of_lt (Nat.lt_succ_self _)
  have hne_N_8 : h2.next ≠ h8.next := by
    rw [h8next]; exact Nat.ne_of_lt (Nat.lt_succ_of_lt (Nat.lt_succ_self _))
  have hne_5_8 : h5.next ≠ h8.next := by
    rw [hnext5, h8next]; exact Nat.ne_of_lt (Nat.lt_succ_self _)
  have hne_8_nc : h8.next ≠ ncA := by
    rw [h8next]; exact Nat.ne_of_gt (Nat.lt_succ_of_lt (Nat.lt_succ_of_lt hncLt))
  have hne_8_5 : h8.next ≠ h5.next := by
    rw [hnext5, h8next]; exact Nat.ne_of_gt (Nat.lt_succ_self _)
  -- the link constructor object through the stages
  have hNobj3 : h3.objs h2.next = some { props := [], proto := .undef, code := some .noop } := by
    rw [hh3]; exact objs_alloc_self h2 .undef (some .noop)
  have hNobj4 : h4.objs h2.next = some { props := [], proto := .undef, code := some .noop } := by
    rw [hh4, objs_setOwn_ne _ _ _ _ _ hne_N_nc]; exact hNobj3
  have hNobj5 : h5.objs h2.next
      = some { props := [("prototype", pv)], proto := .undef, code := some .noop } := by
    rw [hh5]
    have := objs_setOwn_self h4 h2.next "prototype" pv _ hNobj4
    simpa [setProps] using this
  have hnppv : np = pv :=
    getProp_own h5 h2.next _ "prototype" pv hNobj5 (by simp [getProps])
  have hNobj6 : h6.objs h2.next
      = some { props := [("prototype", pv)], proto := .undef, code := some .noop } := by
    rw [hh6, objs_alloc_ne _ _ _ _ hne_N_5]; exact hNobj5
  have h7ne : ∀ b, b ≠ h5.next → h7.objs b = h6.objs b := by
    intro b hb
    rw [hh7]
    split
    · split
      · exact objs_copyOwn_ne _ _ _ b hb
      · rfl
    · rfl
  have hNobj7 : h7.objs h2.next
      = some { props := [("prototype", pv)], proto := .undef, code := some .noop } := by
    rw [h7ne _ hne_N_5]; exact hNobj6
  have hNobj8 : h8.objs h2.next
      = some { props := [("prototype", pv)], proto := .undef, code := some .noop } := by
    rw [hh8, objs_setOwn_ne _ _ _ _ _ hne_N_5]; exact hNobj7
  have hNobj9 : h9.objs h2.next
      = some { props := [("prototype", pv)], proto := .undef, code := some .noop } := by
    rw [hh9, objs_alloc_ne _ _ _ _ hne_N_8]; exact hNobj8
  have hNobj10 : h10.objs h2.next
      = some { props := [("prototype", pv)], proto := .undef, code := some .noop } := by
    rw [hh10, objs_setOwn_ne _ _ _ _ _ hne_N_5]; exact hNobj9
  have hNobjF : hF.objs h2.next
      = some { props := [("prototype", pv)], proto := .undef, code := some .noop } := by
    rw [hhF, objs_setOwn_ne _ _ _ _ _ hne_N_nc]; exact hNobj10
  -- the new prototype object through the stages
  have hnpObj6 : h6.objs h5.next = some { props := [], proto := pv, code := none } := by
    rw [hh6, objs_alloc_self h5 np none, hnppv]
  have h7shape : ∃ P7, h7.objs h5.next = some { props := P7, proto := pv, code := none } ∧
      (tt ≠ "object" → P7 = []) := by
    rw [hh7]
    split
    · rename_i htt
      split
      · rename_i protoA hm
        obtain ⟨props', hp⟩ := objs_copyOwn_shape h6 protoA h5.next _ hnpObj6
        exact ⟨props', hp, fun htt' => absurd htt htt'⟩
      · exact ⟨[], hnpObj6, fun _ => rfl⟩
    · exact ⟨[], hnpObj6, fun _ => rfl⟩
  obtain ⟨P7, hP7, hP7e⟩ := h7shape
  have hnpObj8 : h8.objs h5.next
      = some { props := setProps P7 "constructor" (.ref ncA), proto := pv, code := none } := by
    rw [hh8]
    exact objs_setOwn_self h7 h5.next "constructor" (.ref ncA) _ hP7
  have hnpObj9 : h9.objs h5.next
      = some { props := setProps P7 "constructor" (.ref ncA), proto := pv, code := none } := by
    rw [hh9, objs_alloc_ne _ _ _ _ hne_5_8]; exact hnpObj8
  have hnpObj10 : h10.objs h5.next
      = some { props := (setProps (setProps P7 "constructor" (.ref ncA)) "parent" (.ref h8.next)), proto := pv, code := none } := by
    rw [hh10]
    exact objs_setOwn_self h9 h5.next "parent" (.ref h8.next) _ hnpObj9
  have hnpObjF : hF.objs h5.next
      = some { props := (setProps (setProps P7 "constructor" (.ref ncA)) "parent" (.ref h8.next)), proto := pv, code := none } := by
    rw [hhF, objs_setOwn_ne _ _ _ _ _ hne_nc_5.symm]
    exact hnpObj10
  -- the parent-initializer function object
  have hpiObj9 : h9.objs h8.next
      = some { props := [], proto := .undef, code := some .parentInit } := by
    rw [hh9]; exact objs_alloc_self h8 .undef (some .parentInit)
  have hpiObj10 : h10.objs h8.next
      = some { props := [], proto := .undef, code := some .parentInit } := by
    rw [hh10, objs_setOwn_ne _ _ _ _ _ hne_8_5]; exact hpiObj9
  have hpiObjF : hF.objs h8.next
      = some { props := [], proto := .undef, code := some .parentInit } := by
    rw [hhF, objs_setOwn_ne _ _ _ _ _ hne_8_nc]; exact hpiObj10
  -- the target constructor object through the stages
  have hncObj3 : h3.objs ncA = some ncO := by
    rw [hh3, objs_alloc_ne _ _ _ _ hne_nc_N]; exact hncO
  have hncObj4 : h4.objs ncA
      = some { props := setProps ncO.props "parent" (.ref h2.next), proto := ncO.proto, code := ncO.code } := by
    rw [hh4]
    exact objs_setOwn_self h3 ncA "parent" (.ref h2.next) ncO hncObj3
  have hncObj5 : h5.objs ncA
      = some { props := setProps ncO.props "parent" (.ref h2.next), proto := ncO.proto, code := ncO.code } := by
    rw [hh5, objs_setOwn_ne _ _ _ _ _ hne_nc_N]; exact hncObj4
  have hncObj6 : h6.objs ncA
      = some { props := setProps ncO.props "parent" (.ref h2.next), proto := ncO.proto, code := ncO.code } := by
    rw [hh6, objs_alloc_ne _ _ _ _ hne_nc_5]; exact hncObj5
  have hncObj7 : h7.objs ncA
      = some { props := setProps ncO.props "parent" (.ref h2.next), proto := ncO.proto, code := ncO.code } := by
    rw [h7ne _ hne_nc_5]; exact hncObj6
  have hncObj8 : h8.objs ncA
      = some { props := setProps ncO.props "parent" (.ref h2.next), proto := ncO.proto, code := ncO.code } := by
    rw [hh8, objs_setOwn_ne _ _ _ _ _ hne_nc_5]; exact hncObj7
  have hncObj9 : h9.objs ncA
      = some { props := setProps ncO.props "parent" (.ref h2.next), proto := ncO.proto, code := ncO.code } := by
    rw [hh9, objs_alloc_ne _ _ _ _ hne_nc_8]; exact hncObj8
  have hncObj10 : h10.objs ncA
      = some { props := setProps ncO.props "parent" (.ref h2.next), proto := ncO.proto, code := ncO.code } := by
    rw [hh10, objs_setOwn_ne _ _ _ _ _ hne_nc_5]; exact hncObj9
  have hncObjF : hF.objs ncA
      = some { props := (setProps (setProps ncO.props "parent" (.ref h2.next)) "prototype" (.ref h5.next)), proto := ncO.proto, code := ncO.code } := by
    rw [hhF]
    exact objs_setOwn_self h10 ncA "prototype" (.ref h5.next) _ hncObj10
  -- assembled evolution invariant
  have hpres67 : Pres h6 h7 := by
    rw [hh7]
    split
    · split
      · exact pres_copyOwn _ _ _
      · exact Pres.refl _
    · exact Pres.refl _
  have hpres : Pres h2 hF :=
    Pres.trans (pres_alloc h2 .undef (some .noop))
    (Pres.trans (pres_setOwn h3 ncA "parent" (.ref h2.next))
    (Pres.trans (pres_setOwn h4 h2.next "prototype" pv)
    (Pres.trans (pres_alloc h5 np none)
    (Pres.trans hpres67
    (Pres.trans (pres_setOwn h7 h5.next "constructor" (.ref ncA))
    (Pres.trans (pres_alloc h8 .undef (some .parentInit))
    (Pres.trans (pres_setOwn h9 h5.next "parent" (.ref h8.next))
    (pres_setOwn h10 ncA "prototype" (.ref h5.next)))))))))
  refine ⟨by trivial, by trivial, by first | exact h8next | trivial, hpres,
    ?_, ?_, ?_, ?_, ?_, ?_, ?_, ?_⟩
  · -- K.parent = F
    simp only [Heap.getOwn, hncObjF]
    rw [getProps_setProps_ne _ "prototype" "parent" _ (by decide), getProps_setProps_self]
  · -- K.prototype = new prototype
    simp only [Heap.getOwn, hncObjF]
    rw [getProps_setProps_self, hnext5]
  · -- new prototype's constructor = K
    rw [show h2.next + 1 = h5.next from hnext5.symm]
    simp only [Heap.getOwn, hnpObjF]
    rw [getProps_setProps_ne _ "parent" "constructor" _ (by decide), getProps_setProps_self]
  · -- new prototype's parent = the initializer function
    rw [show h2.next + 1 = h5.next from hnext5.symm]
    simp only [Heap.getOwn, hnpObjF]
    rw [getProps_setProps_self, h8next]
  · -- the initializer function is callable parentInit code
    rw [show h2.next + 2 = h8.next from h8next.symm]
    simp [callableCode, hpiObjF]
  · -- the link constructor: noop code, prototype grafted from the source
    exact ⟨_, hNobjF, rfl, by simp [getProps]⟩
  · -- the new prototype object: plain, delegating to the source's template
    refine ⟨_, hnpObjF, rfl, rfl, ?_⟩
    intro htt k hk1 hk2
    rw [hP7e htt]
    rw [getProps_setProps_ne _ "parent" k _ hk2, getProps_setProps_ne _ "constructor" k _ hk1]
    rfl
  · -- a distinct normalized source keeps its template reference
    intro hnsNe
    have hne_ns_N : nsA ≠ h2.next := Nat.ne_of_lt hnsLt
    have hne_ns_5 : nsA ≠ h5.next := by
      rw [hnext5]; exact Nat.ne_of_lt (Nat.lt_succ_of_lt hnsLt)
    have hne_ns_8 : nsA ≠ h8.next := by
      rw [h8next]; exact Nat.ne_of_lt (Nat.lt_succ_of_lt (Nat.lt_succ_of_lt hnsLt))
    have hnsF : hF.objs nsA = h2.objs nsA := by
      rw [hhF, objs_setOwn_ne _ _ _ _ _ hnsNe, hh10,
        objs_setOwn_ne _ _ _ _ _ hne_ns_5, hh9, objs_alloc_ne _ _ _ _ hne_ns_8,
        hh8, objs_setOwn_ne _ _ _ _ _ hne_ns_5, h7ne _ hne_ns_5, hh6,
        objs_alloc_ne _ _ _ _ hne_ns_5, hh5, objs_setOwn_ne _ _ _ _ _ hne_ns_N,
        hh4, objs_setOwn_ne _ _ _ _ _ hnsNe, hh3, objs_alloc_ne _ _ _ _ hne_ns_N]
    simp only [Heap.getOwn, hnsF]

theorem runTask_new_noop_fuel (f : Nat) (h : Heap) (fA : Addr) (o : Obj)
    (ho : h.objs fA = some o) (hc : o.code = some .noop) (hne : fA ≠ h.next) :
    runTask (f + 2) (.newObj (.ref fA) []) h =
      .ok (h.alloc (getProp h (.ref fA) "prototype") none).1 (.ref h.next) := by
  have hcc : callableCode h (.ref fA) = some Code.noop := by
    simp [callableCode, ho, hc]
  have hcc1 : callableCode (h.alloc (getProp h (.ref fA) "prototype") none).1 (.ref fA)
      = some Code.noop := by
    simp [callableCode, objs_alloc_ne h _ none fA hne, ho, hc]
  show runTask ((f + 1) + 1) (.newObj (.ref fA) []) h = _
  simp only [runTask, hcc, snd_alloc]
  show (match runTask (f + 1) (.call (.ref fA) h.next [])
      (h.alloc (getProp h (.ref fA) "prototype") none).1 with
    | .err h2 e => Res.err h2 e
    | .ok h2 r => match r with
      | .ref b => Res.ok h2 (.ref b)
      | _ => Res.ok h2 (.ref h.next)) = _
  simp only [runTask, hcc1]

/-- Postcondition of C1: from a heap `h`, the first parent-initializer
invocation on instance `thisA` with arguments `args`, where the Link
Constructor sits at `lA`, terminated in heap `h'` with value `rv` — the
call builds the fresh source instance `p` at address `h.next` delegating to
the Link Constructor's `prototype`, runs `p.constructor` against `p` with
exactly `args`, copies every own property of `p` onto the instance, stores
`p` itself in the instance's own `parent` property, returns the instance,
and leaves `this.parent` a non-callable value so a further invocation
through it fails. -/
def C1Post (h : Heap) (thisA : Addr) (args : List Value) (lA : Addr) (fuel : Nat)
    (h' : Heap) (rv : Value) : Prop :=
  rv = .ref thisA ∧
  h.objs h.next = none ∧
  (∃ h2 r2,
    runTask fuel (.call (getProp (h.alloc (getProp h (.ref lA) "prototype") none).1
        (.ref h.next) "constructor") h.next args)
      (h.alloc (getProp h (.ref lA) "prototype") none).1 = .ok h2 r2 ∧
    h' = (copyOwn h2 h.next thisA).setOwn thisA "parent" (.ref h.next)) ∧
  (∃ po, h'.objs h.next = some po ∧ po.proto = getProp h (.ref lA) "prototype" ∧
    po.code = none) ∧
  (∀ k v, k ≠ "parent" → h'.getOwn h.next k = some v → h'.getOwn thisA k = some v) ∧
  h'.getOwn thisA "parent" = some (.ref h.next) ∧
  (∀ (g : Nat) (args2 : List Value),
    runTask (g + 1) (.call (.ref h.next) thisA args2) h' = .err h' notFn)

theorem listHeap_wf (l : List Obj) (hn : ∀ o ∈ l, (o.props.map Prod.fst).Nodup) :
    (listHeap l).wf := by
  constructor
  · intro a ha
    by_contra hlt
    have hnone : l.get? a = none := List.get?_eq_none.mpr (le_of_not_lt hlt)
    simp only [listHeap] at ha
    rw [hnone] at ha
    cases ha
  · intro a o ho
    exact hn o (List.get?_mem ho)

theorem extendFn_cons (h : Heap) (s t : Value) (r : List Value) :
    extendFn h (s :: t :: r) = extendCore h s t := by
  unfold extendFn
  rw [if_neg (by simp)]
  rfl

theorem ConstructorFn_obj_conclusions (h : Heap) (a : Addr) (o : Obj) (h' : Heap)
    (K : Value) (hwf : h.wf) (ho : h.objs a = some o) (hc : o.code = none)
    (hok : ConstructorFn h (.ref a) = .ok h' K) :
    ∃ kA, K = .ref kA ∧ (h'.objs kA).isSome ∧
      h'.getOwn kA "prototype" = some (.ref a) ∧
      h'.getOwn a "constructor" = some K ∧
      (∀ c, getProps o.props "constructor" = some c → K = c) ∧
      (getProps o.props "constructor" = none →
        kA = h.next ∧ h.objs h.next = none ∧ callableCode h' K = some .noop) ∧
      Pres h h' := by
  have hty := typeOf_plain h a o ho hc
  have haLt : a < h.next := hwf.1 a (by simp [ho])
  have hgo : h.getOwn a "constructor" = getProps o.props "constructor" := by
    rw [Heap.getOwn, ho]
  cases hget : getProps o.props "constructor" with
  | none =>
    rw [ConstructorFn_obj_noctor h a hty (hgo.trans hget)] at hok
    cases hok
    have hkObjs : ((((h.alloc Value.undef (some Code.noop)).1).setOwn h.next "prototype"
        (.ref a)).setOwn a "constructor" (.ref h.next)).objs h.next
        = some { props := [("prototype", .ref a)], proto := .undef, code := some .noop } := by
      rw [objs_setOwn_ne _ _ _ _ _ (Nat.ne_of_gt haLt)]
      have := objs_setOwn_self (h.alloc Value.undef (some Code.noop)).1 h.next "prototype"
        (.ref a) { props := [], proto := .undef, code := some .noop }
        (objs_alloc_self h .undef (some .noop))
      simpa [setProps] using this
    have haObjs : ((((h.alloc Value.undef (some Code.noop)).1).setOwn h.next "prototype"
        (.ref a)).setOwn a "constructor" (.ref h.next)).objs a
        = some { props := setProps o.props "constructor" (.ref h.next), proto := o.proto, code := o.code } := by
      have h3 : ((h.alloc Value.undef (some Code.noop)).1.setOwn h.next "prototype"
          (.ref a)).objs a = some o := by
        rw [objs_setOwn_ne _ _ _ _ _ (Nat.ne_of_lt haLt), objs_alloc_ne _ _ _ _
          (Nat.ne_of_lt haLt)]
        exact ho
      exact objs_setOwn_self _ a "constructor" (.ref h.next) o h3
    refine ⟨h.next, rfl, by simp [hkObjs], ?_, ?_, ?_, ?_, ?_⟩
    · simp only [Heap.getOwn, hkObjs]
      simp [getProps]
    · simp only [Heap.getOwn, haObjs, getProps_setProps_self]
    · intro c hcc
      cases hcc
    · exact fun _ => ⟨rfl, wf_objs_next h hwf, by simp [callableCode, hkObjs]⟩
    · exact Pres.trans (pres_alloc h .undef (some .noop))
        (Pres.trans (pres_setOwn _ h.next "prototype" (.ref a))
          (pres_setOwn _ a "constructor" (.ref h.next)))
  | some c =>
    cases c with
    | ref cA =>
      cases hcl : h.objs cA with
      | some co =>
        rw [ConstructorFn_obj_ctor h a cA co hty (hgo.trans hget) hcl] at hok
        cases hok
        have haObjs : ((h.setOwn cA "prototype" (.ref a)).setOwn a "constructor"
            (.ref cA)).objs a = some (if a = cA
              then { props := setProps (setProps co.props "prototype" (.ref a)) "constructor" (.ref cA), proto := co.proto, code := co.code }
              else { props := setProps o.props "constructor" (.ref cA), proto := o.proto, code := o.code }) := by
          by_cases hac : a = cA
          · subst hac
            rw [if_pos rfl]
            exact objs_setOwn_self _ a "constructor" (.ref a) _
              (objs_setOwn_self h a "prototype" (.ref a) co hcl)
          · rw [if_neg hac]
            exact objs_setOwn_self _ a "constructor" (.ref cA) o
              (by rw [objs_setOwn_ne _ _ _ _ _ hac]; exact ho)
        refine ⟨cA, rfl, ?_, ?_, ?_, ?_, ?_, ?_⟩
        · apply isSome_setOwn
          apply isSome_setOwn
          simp [hcl]
        · by_cases hac : a = cA
          · subst hac
            simp only [Heap.getOwn, haObjs, eq_self_iff_true, if_true]
            rw [getProps_setProps_ne _ "constructor" "prototype" _ (by decide),
              getProps_setProps_self]
          · rw [getOwn_setOwn_ne_addr _ _ _ _ _ _ (fun he => hac he.symm)]
            rw [getOwn_setOwn_self h cA "prototype" (.ref a) co hcl]
        · simp only [Heap.getOwn, haObjs]
          by_cases hac : a = cA
          · rw [if_pos hac, getProps_setProps_self]
          · rw [if_neg hac, getProps_setProps_self]
        · intro c' hcc
          exact Option.some.inj hcc
        · intro hn
          cases hn
        · exact Pres.trans (pres_setOwn h cA "prototype" (.ref a))
            (pres_setOwn _ a "constructor" (.ref cA))
      | none =>
        rw [ConstructorFn_obj_step h a hty] at hok
        simp only [Heap.hasOwn, hgo.trans hget, Option.isSome_some, if_true,
          Option.getD_some, assign, setOwn_dangling h cA "prototype" (.ref a) hcl,
          getProp_dangling h cA "prototype" hcl] at hok
        cases hok
    | undef =>
      rw [ConstructorFn_obj_step h a hty] at hok
      simp only [Heap.hasOwn, hgo.trans hget, Option.isSome_some, if_true,
        Option.getD_some, assign] at hok
      cases hok
    | vnull =>
      rw [ConstructorFn_obj_step h a hty] at hok
      simp only [Heap.hasOwn, hgo.trans hget, Option.isSome_some, if_true,
        Option.getD_some, assign] at hok
      cases hok
    | num n =>
      rw [ConstructorFn_obj_step h a hty] at hok
      simp only [Heap.hasOwn, hgo.trans hget, Option.isSome_some, if_true,
        Option.getD_some, assign,
        getProp_prim h (.num n) "prototype" (by intro b hb; cases hb)] at hok
      cases hok
    | str s =>
      rw [ConstructorFn_obj_step h a hty] at hok
      simp only [Heap.hasOwn, hgo.trans hget, Option.isSome_some, if_true,
        Option.getD_some, assign,
        getProp_prim h (.str s) "prototype" (by intro b hb; cases hb)] at hok
      cases hok
    | bool b =>
      rw [ConstructorFn_obj_step h a hty] at hok
      simp only [Heap.hasOwn, hgo.trans hget, Option.isSome_some, if_true,
        Option.getD_some, assign,
        getProp_prim h (.bool b) "prototype" (by intro bb hb; cases hb)] at hok
      cases hok

theorem avoids_ref_ne (X a : Addr) (h : Value.avoids X (.ref a) = true) : a ≠ X :=
  of_decide_eq_true h

theorem getProps_all_avoids (X : Addr) (l : List (String × Value)) (k : String)
    (v : Value) (hall : l.all (fun p => p.2.avoids X) = true)
    (hk : getProps l k = some v) : Value.avoids X v = true := by
  induction l with
  | nil => cases hk
  | cons p rest ih =>
    rw [List.all_cons, Bool.and_eq_true] at hall
    rw [getProps] at hk
    by_cases hp : p.1 = k
    · rw [if_pos hp] at hk
      injection hk with hk
      rw [← hk]
      exact hall.1
    · rw [if_neg hp] at hk
      exact ih hall.2 hk

theorem setProps_all_avoids (X : Addr) (l : List (String × Value)) (k : String)
    (v : Value) (hall : l.all (fun p => p.2.avoids X) = true)
    (hv : Value.avoids X v = true) :
    (setProps l k v).all (fun p => p.2.avoids X) = true := by
  induction l with
  | nil =>
    rw [setProps, List.all_cons, Bool.and_eq_true]
    exact ⟨hv, rfl⟩
  | cons p rest ih =>
    rw [List.all_cons, Bool.and_eq_true] at hall
    rw [setProps]
    by_cases hp : p.1 = k
    · rw [if_pos hp, List.all_cons, Bool.and_eq_true]
      exact ⟨hv, hall.2⟩
    · rw [if_neg hp, List.all_cons, Bool.and_eq_true]
      exact ⟨hall.1, ih hall.2⟩

theorem getD_all_avoids (X : Addr) (args : List Value) (i : Nat)
    (hall : args.all (Value.avoids X) = true) :
    Value.avoids X (args.getD i .undef) = true := by
  induction args generalizing i with
  | nil => cases i <;> rfl
  | cons v rest ih =>
    rw [List.all_cons, Bool.and_eq_true] at hall
    cases i with
    | zero => exact hall.1
    | succ n => exact ih n hall.2

theorem getPropFuel_frame (X : Addr) (h h' : Heap)
    (hagree : ∀ a, a ≠ X → h.objs a = h'.objs a)
    (havoid : Heap.avoidsOff h X) :
    ∀ (n : Nat) (v : Value) (k : String), Value.avoids X v = true →
      getPropFuel h n v k = getPropFuel h' n v k ∧
      Value.avoids X (getPropFuel h n v k) = true := by
  intro n
  induction n with
  | zero => intro v k _; exact ⟨rfl, rfl⟩
  | succ n ih =>
    intro v k hv
    cases v with
    | ref a =>
      have ha : a ≠ X := of_decide_eq_true hv
      have hobj : h'.objs a = h.objs a := (hagree a ha).symm
      cases ho : h.objs a with
      | none =>
        constructor
        · simp only [getPropFuel, hobj, ho]
        · simp only [getPropFuel, ho]
          rfl
      | some o =>
        have hoa : Obj.avoidsB X o = true := havoid a o ha ho
        rw [Obj.avoidsB, Bool.and_eq_true, Bool.and_eq_true] at hoa
        cases hk : getProps o.props k with
        | some w =>
          have hw : Value.avoids X w = true :=
            getProps_all_avoids X o.props k w hoa.1.2 hk
          constructor
          · simp only [getPropFuel, hobj, ho, hk]
          · simp only [getPropFuel, ho, hk]
            exact hw
        | none =>
          have hp := ih o.proto k hoa.1.1
          constructor
          · simp only [getPropFuel, hobj, ho, hk]
            exact hp.1
          · simp only [getPropFuel, ho, hk]
            exact hp.2
    | undef => exact ⟨rfl, rfl⟩
    | vnull => exact ⟨rfl, rfl⟩
    | num n0 => exact ⟨rfl, rfl⟩
    | str s => exact ⟨rfl, rfl⟩
    | bool b => exact ⟨rfl, rfl⟩

theorem getProp_frame (X : Addr) (h h' : Heap) (hnext : h.next = h'.next)
    (hagree : ∀ a, a ≠ X → h.objs a = h'.objs a)
    (havoid : Heap.avoidsOff h X) (v : Value) (k : String)
    (hv : Value.avoids X v = true) :
    getProp h v k = getProp h' v k ∧ Value.avoids X (getProp h v k) = true := by
  have := getPropFuel_frame X h h' hagree havoid (h.next + 1) v k hv
  unfold getProp
  rw [← hnext]
  exact this

theorem callableCode_frame (X : Addr) (h h' : Heap)
    (hagree : ∀ a, a ≠ X → h.objs a = h'.objs a) (v : Value)
    (hv : Value.avoids X v = true) : callableCode h v = callableCode h' v := by
  cases v with
  | ref a =>
    have := hagree a (of_decide_eq_true hv)
    rw [callableCode, callableCode, this]
  | undef => rfl
  | vnull => rfl
  | num n => rfl
  | str s => rfl
  | bool b => rfl

theorem callableCode_avoids (X : Addr) (h : Heap) (havoid : Heap.avoidsOff h X)
    (v : Value) (c : Code) (hv : Value.avoids X v = true)
    (hc : callableCode h v = some c) : Code.avoidsB X c = true := by
  cases v with
  | ref a =>
    rw [callableCode] at hc
    cases ho : h.objs a with
    | none => rw [ho] at hc; cases hc
    | some o =>
      rw [ho] at hc
      simp only [Option.bind] at hc
      have hoa := havoid a o (of_decide_eq_true hv) ho
      rw [Obj.avoidsB, Bool.and_eq_true, Bool.and_eq_true] at hoa
      have hcode := hoa.2
      rw [hc] at hcode
      exact hcode
  | undef => cases hc
  | vnull => cases hc
  | num n => cases hc
  | str s => cases hc
  | bool b => cases hc

theorem agree_setOwn (X : Addr) {h h' : Heap}
    (hagree : ∀ b, b ≠ X → h.objs b = h'.objs b) (a : Addr) (k : String)
    (v : Value) (ha : a ≠ X) :
    ∀ b, b ≠ X → (h.setOwn a k v).objs b = (h'.setOwn a k v).objs b := by
  intro b hb
  simp only [Heap.setOwn]
  by_cases hba : b = a
  · rw [if_pos hba, if_pos hba, hagree a ha]
  · rw [if_neg hba, if_neg hba]
    exact hagree b hb

theorem avoidsOff_setOwn (h : Heap) (X a : Addr) (k : String) (v : Value)
    (hv : Value.avoids X v = true) (hav : Heap.avoidsOff h X) :
    Heap.avoidsOff (h.setOwn a k v) X := by
  intro b o hb hob
  by_cases hba : b = a
  · subst hba
    cases ho : h.objs b with
    | none =>
      rw [Heap.setOwn] at hob
      simp [ho] at hob
    | some o0 =>
      rw [objs_setOwn_self h b k v o0 ho] at hob
      injection hob with hob
      have h0 := hav b o0 hb ho
      rw [Obj.avoidsB, Bool.and_eq_true, Bool.and_eq_true] at h0
      rw [← hob, Obj.avoidsB, Bool.and_eq_true, Bool.and_eq_true]
      exact ⟨⟨h0.1.1, setProps_all_avoids X o0.props k v h0.1.2 hv⟩, h0.2⟩
  · rw [objs_setOwn_ne h a k v b hba] at hob
    exact hav b o hb hob

theorem agree_alloc (X : Addr) {h h' : Heap} (hnext : h.next = h'.next)
    (hagree : ∀ b, b ≠ X → h.objs b = h'.objs b) (p : Value) (c : Option Code) :
    ∀ b, b ≠ X → (h.alloc p c).1.objs b = (h'.alloc p c).1.objs b := by
  intro b hb
  simp only [Heap.alloc]
  rw [← hnext]
  by_cases hbn : b = h.next
  · rw [if_pos hbn, if_pos hbn]
  · rw [if_neg hbn, if_neg hbn]
    exact hagree b hb

theorem avoidsOff_alloc (h : Heap) (X : Addr) (p : Value) (c : Option Code)
    (hp : Value.avoids X p = true)
    (hc : (match c with | some cc => Code.avoidsB X cc | none => true) = true)
    (hav : Heap.avoidsOff h X) : Heap.avoidsOff (h.alloc p c).1 X := by
  intro b o hb hob
  by_cases hbn : b = h.next
  · subst hbn
    rw [objs_alloc_self h p c] at hob
    injection hob with hob
    rw [← hob, Obj.avoidsB, Bool.and_eq_true, Bool.and_eq_true]
    exact ⟨⟨hp, rfl⟩, hc⟩
  · rw [objs_alloc_ne h p c b hbn] at hob
    exact hav b o hb hob

theorem agree_setMany (X dst : Addr) (hdst : dst ≠ X)
    (ps : List (String × Value)) :
    ∀ {h h' : Heap}, (∀ b, b ≠ X → h.objs b = h'.objs b) →
      ∀ b, b ≠ X → (setMany h dst ps).objs b = (setMany h' dst ps).objs b := by
  induction ps with
  | nil =>
    intro h h' hagree b hb
    exact hagree b hb
  | cons p rest ih =>
    intro h h' hagree b hb
    show (setMany (h.setOwn dst p.1 p.2) dst rest).objs b
      = (setMany (h'.setOwn dst p.1 p.2) dst rest).objs b
    exact ih (agree_setOwn X hagree dst p.1 p.2 hdst) b hb

theorem avoidsOff_setMany (X dst : Addr) (ps : List (String × Value)) :
    ∀ h : Heap, ps.all (fun p => p.2.avoids X) = true →
      Heap.avoidsOff h X → Heap.avoidsOff (setMany h dst ps) X := by
  induction ps with
  | nil => intro h _ hav; exact hav
  | cons p rest ih =>
    intro h hps hav
    rw [List.all_cons, Bool.and_eq_true] at hps
    show Heap.avoidsOff (setMany (h.setOwn dst p.1 p.2) dst rest) X
    exact ih _ hps.2 (avoidsOff_setOwn h X dst p.1 p.2 hps.1 hav)

theorem heapFrame_anchor (X : Addr) {hA hA' hB hB' g g' : Heap}
    (hfr : heapFrame X hB hB' g g')
    (hBX : hB.objs X = hA.objs X) (hBX2 : hB'.objs X = hA'.objs X)
    (hle : hA.next ≤ hB.next) : heapFrame X hA hA' g g' :=
  ⟨hfr.1, hfr.2.1, hfr.2.2.1, hfr.2.2.2.1.trans hBX, hfr.2.2.2.2.1.trans hBX2,
    Nat.le_trans hle hfr.2.2.2.2.2⟩

theorem resFrame_anchor (X : Addr) {hA hA' hB hB' : Heap} {r r' : Res}
    (hr : resFrame X hB hB' r r')
    (hBX : hB.objs X = hA.objs X) (hBX2 : hB'.objs X = hA'.objs X)
    (hle : hA.next ≤ hB.next) : resFrame X hA hA' r r' := by
  cases r with
  | ok g v =>
    cases r' with
    | ok g' v' =>
      obtain ⟨hv, hva, hfr⟩ := hr
      exact ⟨hv, hva, heapFrame_anchor X hfr hBX hBX2 hle⟩
    | err g' e' => exact hr.elim
  | err g e =>
    cases r' with
    | ok g' v' => exact hr.elim
    | err g' e' =>
      obtain ⟨he, hfr⟩ := hr
      exact ⟨he, heapFrame_anchor X hfr hBX hBX2 hle⟩

theorem evalArg_frame (X : Addr) (h h' : Heap) (thisA : Addr) (args : List Value)
    (hnext : h.next = h'.next)
    (hagree : ∀ a, a ≠ X → h.objs a = h'.objs a)
    (havoid : Heap.avoidsOff h X)
    (hthis : thisA ≠ X)
    (hargs : args.all (Value.avoids X) = true)
    (a : Arg) (ha : Arg.avoidsB X a = true) :
    evalArg h thisA args a = evalArg h' thisA args a ∧
      Value.avoids X (evalArg h thisA args a) = true := by
  cases a with
  | cst v => exact ⟨rfl, ha⟩
  | argIdx i => exact ⟨rfl, getD_all_avoids X args i hargs⟩
  | thisProp k =>
    exact getProp_frame X h h' hnext hagree havoid (.ref thisA) k
      (decide_eq_true hthis)
  | athis => exact ⟨rfl, decide_eq_true hthis⟩
  | argProp i k =>
    exact getProp_frame X h h' hnext hagree havoid (args.getD i .undef) k
      (getD_all_avoids X args i hargs)

theorem evalArgs_frame (X : Addr) (h h' : Heap) (thisA : Addr) (args : List Value)
    (hnext : h.next = h'.next)
    (hagree : ∀ a, a ≠ X → h.objs a = h'.objs a)
    (havoid : Heap.avoidsOff h X)
    (hthis : thisA ≠ X)
    (hargs : args.all (Value.avoids X) = true) :
    ∀ argEs : List Arg, argEs.all (Arg.avoidsB X) = true →
      argEs.map (evalArg h thisA args) = argEs.map (evalArg h' thisA args) ∧
      (argEs.map (evalArg h thisA args)).all (Value.avoids X) = true := by
  intro argEs
  induction argEs with
  | nil => intro _; exact ⟨rfl, rfl⟩
  | cons a rest ih =>
    intro hall
    rw [List.all_cons, Bool.and_eq_true] at hall
    have h1 := evalArg_frame X h h' thisA args hnext hagree havoid hthis hargs a hall.1
    have h2 := ih hall.2
    constructor
    · rw [List.map_cons, List.map_cons, h1.1, h2.1]
    · rw [List.map_cons, List.all_cons, Bool.and_eq_true]
      exact ⟨h1.2, h2.2⟩

theorem cleanB_call (X : Addr) (fnV : Value) (thisA : Addr) (args : List Value)
    (h1 : Value.avoids X fnV = true) (h2 : thisA ≠ X)
    (h3 : args.all (Value.avoids X) = true) :
    Task.cleanB X (.call fnV thisA args) = true := by
  simp [Task.cleanB, h1, h2, h3]

theorem cleanB_newObj (X : Addr) (fnV : Value) (args : List Value)
    (h1 : Value.avoids X fnV = true) (h2 : args.all (Value.avoids X) = true) :
    Task.cleanB X (.newObj fnV args) = true := by
  simp [Task.cleanB, h1, h2]

theorem cleanB_seq (X : Addr) (thisA : Addr) (args : List Value)
    (body : List Stmt) (h1 : thisA ≠ X) (h2 : args.all (Value.avoids X) = true)
    (h3 : body.all (Stmt.avoidsB X) = true) :
    Task.cleanB X (.seq thisA args body) = true := by
  simp [Task.cleanB, h1, h2, h3]

theorem frame_finish_parent (X : Addr) {h0 h0' h2 h2' : Heap} (pA thisA : Addr)
    (hfr : heapFrame X h0 h0' h2 h2') (hpA : pA ≠ X) (hthis : thisA ≠ X) :
    heapFrame X h0 h0' ((copyOwn h2 pA thisA).setOwn thisA "parent" (.ref pA))
      ((copyOwn h2' pA thisA).setOwn thisA "parent" (.ref pA)) := by
  obtain ⟨hn, hag, hoff, hX1, hX2, hle⟩ := hfr
  have hps : h2.objs pA = h2'.objs pA := hag pA hpA
  have hagC : ∀ b, b ≠ X → (copyOwn h2 pA thisA).objs b = (copyOwn h2' pA thisA).objs b := by
    intro b hb
    rw [copyOwn, copyOwn, ← hps]
    cases hp2 : h2.objs pA with
    | none => exact hag b hb
    | some p2 => exact agree_setMany X thisA hthis p2.props hag b hb
  have hoffC : Heap.avoidsOff (copyOwn h2 pA thisA) X := by
    rw [copyOwn]
    cases hp2 : h2.objs pA with
    | none => exact hoff
    | some p2 =>
      have hoa := hoff pA p2 hpA hp2
      rw [Obj.avoidsB, Bool.and_eq_true, Bool.and_eq_true] at hoa
      exact avoidsOff_setMany X thisA p2.props h2 hoa.1.2 hoff
  have hnC : (copyOwn h2 pA thisA).next = h2.next := next_copyOwn h2 pA thisA
  have hnC2 : (copyOwn h2' pA thisA).next = h2'.next := next_copyOwn h2' pA thisA
  refine ⟨?_, ?_, ?_, ?_, ?_, ?_⟩
  · rw [next_setOwn, next_setOwn, hnC, hnC2, hn]
  · exact agree_setOwn X hagC thisA "parent" (.ref pA) hthis
  · exact avoidsOff_setOwn _ X thisA "parent" (.ref pA) (decide_eq_true hpA) hoffC
  · rw [objs_setOwn_ne _ thisA "parent" _ X (Ne.symm hthis),
      objs_copyOwn_ne h2 pA thisA X (Ne.symm hthis)]
    exact hX1
  · rw [objs_setOwn_ne _ thisA "parent" _ X (Ne.symm hthis),
      objs_copyOwn_ne h2' pA thisA X (Ne.symm hthis)]
    exact hX2
  · rw [next_setOwn, hnC]
    exact hle

theorem runTask_frame (X : Addr) : ∀ (fuel : Nat) (t : Task) (h h' : Heap),
    X < h.next → h.next = h'.next →
    (∀ a, a ≠ X → h.objs a = h'.objs a) →
    Heap.avoidsOff h X →
    Task.cleanB X t = true →
    resFrame X h h' (runTask fuel t h) (runTask fuel t h') := by
  intro fuel
  induction fuel with
  | zero =>
    intro t h h' hX hnext hagree havoid hclean
    exact ⟨rfl, hnext, hagree, havoid, rfl, rfl, Nat.le_refl _⟩
  | succ fuel ih =>
    intro t h h' hX hnext hagree havoid hclean
    match t with
    | .call fnV thisA args =>
      simp only [Task.cleanB, Bool.and_eq_true, decide_eq_true_eq] at hclean
      obtain ⟨⟨hfn, hthis⟩, hargs⟩ := hclean
      have hcc : callableCode h' fnV = callableCode h fnV :=
        (callableCode_frame X h h' hagree fnV hfn).symm
      cases hc : callableCode h fnV with
      | none =>
        simp only [runTask, hc, hcc]
        exact ⟨rfl, hnext, hagree, havoid, rfl, rfl, Nat.le_refl _⟩
      | some c =>
        cases c with
        | noop =>
          simp only [runTask, hc, hcc]
          exact ⟨rfl, rfl, hnext, hagree, havoid, rfl, rfl, Nat.le_refl _⟩
        | user body =>
          have hbody : Code.avoidsB X (.user body) = true :=
            callableCode_avoids X h havoid fnV _ hfn hc
          have hIH := ih (.seq thisA args body) h h' hX hnext hagree havoid
            (cleanB_seq X thisA args body hthis hargs hbody)
          simp only [runTask, hc, hcc]
          generalize hrA : runTask fuel (.seq thisA args body) h = rA at hIH ⊢
          generalize hrB : runTask fuel (.seq thisA args body) h' = rB at hIH ⊢
          cases rA with
          | ok g v =>
            cases rB with
            | ok g' v' =>
              obtain ⟨hv, hva, hfr⟩ := hIH
              exact ⟨rfl, rfl, hfr⟩
            | err g' e' => exact hIH.elim
          | err g e =>
            cases rB with
            | ok g' v' => exact hIH.elim
            | err g' e' =>
              obtain ⟨he, hfr⟩ := hIH
              exact ⟨he, hfr⟩
        | parentInit =>
          have hCV := getProp_frame X h h' hnext hagree havoid (.ref thisA)
            "constructor" (decide_eq_true hthis)
          have hPV := getProp_frame X h h' hnext hagree havoid
            (getProp h (.ref thisA) "constructor") "parent" hCV.2
          simp only [runTask, hc, hcc]
          rw [← hCV.1, ← hPV.1]
          have hIH := ih (.newObj (getProp h (getProp h (.ref thisA) "constructor")
              "parent") []) h h' hX hnext hagree havoid
            (cleanB_newObj X _ [] hPV.2 rfl)
          generalize hrA : runTask fuel (.newObj (getProp h (getProp h (.ref thisA)
              "constructor") "parent") []) h = rA at hIH ⊢
          generalize hrB : runTask fuel (.newObj (getProp h (getProp h (.ref thisA)
              "constructor") "parent") []) h' = rB at hIH ⊢
          cases rA with
          | err g e =>
            cases rB with
            | ok g' v' => exact hIH.elim
            | err g' e' =>
              obtain ⟨he, hfr⟩ := hIH
              exact ⟨he, hfr⟩
          | ok g pV =>
            cases rB with
            | err g' e' => exact hIH.elim
            | ok g' pV2 =>
              obtain ⟨hpveq, hpva, hfr1⟩ := hIH
              obtain ⟨hn1, hag1, hoff1, hX1, hX1b, hle1⟩ := hfr1
              cases hpveq
              cases pV with
              | ref pA =>
                have hpA : pA ≠ X := of_decide_eq_true hpva
                have hXlt1 : X < g.next := Nat.lt_of_lt_of_le hX hle1
                have hKV := getProp_frame X g g' hn1 hag1 hoff1 (.ref pA)
                  "constructor" (decide_eq_true hpA)
                simp only []
                rw [← hKV.1]
                have hIH2 := ih (.call (getProp g (.ref pA) "constructor") pA args)
                  g g' hXlt1 hn1 hag1 hoff1
                  (cleanB_call X _ pA args hKV.2 hpA hargs)
                generalize hrA2 : runTask fuel (.call (getProp g (.ref pA)
                    "constructor") pA args) g = rA2 at hIH2 ⊢
                generalize hrB2 : runTask fuel (.call (getProp g (.ref pA)
                    "constructor") pA args) g' = rB2 at hIH2 ⊢
                cases rA2 with
                | err h2 e =>
                  cases rB2 with
                  | ok h2b v2 => exact hIH2.elim
                  | err h2b e2 =>
                    obtain ⟨he2, hfr2⟩ := hIH2
                    exact ⟨he2, heapFrame_anchor X hfr2 hX1 hX1b hle1⟩
                | ok h2 v2 =>
                  cases rB2 with
                  | err h2b e2 => exact hIH2.elim
                  | ok h2b v2b =>
                    obtain ⟨hv2, hv2a, hfr2⟩ := hIH2
                    refine ⟨rfl, decide_eq_true hthis, ?_⟩
                    exact frame_finish_parent X pA thisA
                      (heapFrame_anchor X hfr2 hX1 hX1b hle1) hpA hthis
              | undef => exact ⟨rfl, hn1, hag1, hoff1, hX1, hX1b, hle1⟩
              | vnull => exact ⟨rfl, hn1, hag1, hoff1, hX1, hX1b, hle1⟩
              | num n0 => exact ⟨rfl, hn1, hag1, hoff1, hX1, hX1b, hle1⟩
              | str s => exact ⟨rfl, hn1, hag1, hoff1, hX1, hX1b, hle1⟩
              | bool b => exact ⟨rfl, hn1, hag1, hoff1, hX1, hX1b, hle1⟩
    | .newObj fnV args =>
      simp only [Task.cleanB, Bool.and_eq_true] at hclean
      obtain ⟨hfn, hargs⟩ := hclean
      have hcc : callableCode h' fnV = callableCode h fnV :=
        (callableCode_frame X h h' hagree fnV hfn).symm
      cases hc : callableCode h fnV with
      | none =>
        simp only [runTask, hc, hcc]
        exact ⟨rfl, hnext, hagree, havoid, rfl, rfl, Nat.le_refl _⟩
      | some c =>
        have hPr := getProp_frame X h h' hnext hagree havoid fnV "prototype" hfn
        simp only [runTask, hc, hcc, snd_alloc]
        rw [← hPr.1, ← hnext]
        have hXne : X ≠ h.next := Nat.ne_of_lt hX
        have hagA := agree_alloc X hnext hagree (getProp h fnV "prototype") none
        have hoffA := avoidsOff_alloc h X (getProp h fnV "prototype") none hPr.2 rfl havoid
        have hnA : (h.alloc (getProp h fnV "prototype") none).1.next
            = (h'.alloc (getProp h fnV "prototype") none).1.next := by
          rw [next_alloc, next_alloc, hnext]
        have hIH := ih (.call fnV h.next args)
          (h.alloc (getProp h fnV "prototype") none).1
          (h'.alloc (getProp h fnV "prototype") none).1
          (Nat.lt_succ_of_lt hX) hnA hagA hoffA
          (cleanB_call X fnV h.next args hfn (Ne.symm hXne) hargs)
        have hoX : (h.alloc (getProp h fnV "prototype") none).1.objs X = h.objs X :=
          objs_alloc_ne h _ none X hXne
        have hoX2 : (h'.alloc (getProp h fnV "prototype") none).1.objs X = h'.objs X :=
          objs_alloc_ne h' _ none X (by rw [← hnext]; exact hXne)
        generalize hrA : runTask fuel (.call fnV h.next args)
            (h.alloc (getProp h fnV "prototype") none).1 = rA at hIH ⊢
        generalize hrB : runTask fuel (.call fnV h.next args)
            (h'.alloc (getProp h fnV "prototype") none).1 = rB at hIH ⊢
        cases rA with
        | err h2 e =>
          cases rB with
          | ok h2b v2 => exact hIH.elim
          | err h2b e2 =>
            obtain ⟨he2, hfr2⟩ := hIH
            exact ⟨he2, heapFrame_anchor X hfr2 hoX hoX2 (Nat.le_succ _)⟩
        | ok h2 r =>
          cases rB with
          | err h2b e2 => exact hIH.elim
          | ok h2b r2 =>
            obtain ⟨hre, hra, hfr2⟩ := hIH
            cases hre
            have hfr3 := heapFrame_anchor X hfr2 hoX hoX2 (Nat.le_succ _)
            cases r with
            | ref b => exact ⟨rfl, hra, hfr3⟩
            | undef => exact ⟨rfl, decide_eq_true (Ne.symm hXne), hfr3⟩
            | vnull => exact ⟨rfl, decide_eq_true (Ne.symm hXne), hfr3⟩
            | num n0 => exact ⟨rfl, decide_eq_true (Ne.symm hXne), hfr3⟩
            | str s => exact ⟨rfl, decide_eq_true (Ne.symm hXne), hfr3⟩
            | bool b => exact ⟨rfl, decide_eq_true (Ne.symm hXne), hfr3⟩
    | .seq thisA args [] =>
      exact ⟨rfl, rfl, hnext, hagree, havoid, rfl, rfl, Nat.le_refl _⟩
    | .seq thisA args (s :: rest) =>
      simp only [Task.cleanB, Bool.and_eq_true, decide_eq_true_eq] at hclean
      obtain ⟨⟨hthis, hargs⟩, hbody⟩ := hclean
      rw [List.all_cons, Bool.and_eq_true] at hbody
      obtain ⟨hs, hrest⟩ := hbody
      cases s with
      | assignThis k a =>
        have hE := evalArg_frame X h h' thisA args hnext hagree havoid hthis hargs a hs
        simp only [runTask]
        rw [← hE.1]
        have hIH := ih (.seq thisA args rest)
          (h.setOwn thisA k (evalArg h thisA args a))
          (h'.setOwn thisA k (evalArg h thisA args a))
          (by rw [next_setOwn]; exact hX)
          (by rw [next_setOwn, next_setOwn]; exact hnext)
          (agree_setOwn X hagree thisA k (evalArg h thisA args a) hthis)
          (avoidsOff_setOwn h X thisA k (evalArg h thisA args a) hE.2 havoid)
          (cleanB_seq X thisA args rest hthis hargs hrest)
        exact resFrame_anchor X hIH
          (objs_setOwn_ne h thisA k (evalArg h thisA args a) X (Ne.symm hthis))
          (objs_setOwn_ne h' thisA k (evalArg h thisA args a) X (Ne.symm hthis))
          (Nat.le_of_eq (next_setOwn h thisA k (evalArg h thisA args a)).symm)
      | callParent argEs =>
        have hList := evalArgs_frame X h h' thisA args hnext hagree havoid hthis
          hargs argEs hs
        have hPar := getProp_frame X h h' hnext hagree havoid (.ref thisA) "parent"
          (decide_eq_true hthis)
        simp only [runTask]
        rw [← hPar.1, ← hList.1]
        have hIH := ih (.call (getProp h (.ref thisA) "parent") thisA
            (argEs.map (evalArg h thisA args))) h h' hX hnext hagree havoid
          (cleanB_call X _ thisA _ hPar.2 hthis hList.2)
        generalize hrA : runTask fuel (.call (getProp h (.ref thisA) "parent") thisA
            (argEs.map (evalArg h thisA args))) h = rA at hIH ⊢
        generalize hrB : runTask fuel (.call (getProp h (.ref thisA) "parent") thisA
            (argEs.map (evalArg h thisA args))) h' = rB at hIH ⊢
        cases rA with
        | err g e =>
          cases rB with
          | ok g' v' => exact hIH.elim
          | err g' e' =>
            obtain ⟨he, hfr⟩ := hIH
            exact ⟨he, hfr⟩
        | ok g v =>
          cases rB with
          | err g' e' => exact hIH.elim
          | ok g' v' =>
            obtain ⟨hveq, hva, hfr⟩ := hIH
            obtain ⟨hn1, hag1, hoff1, hX1, hX1b, hle1⟩ := hfr
            have hIH2 := ih (.seq thisA args rest) g g'
              (Nat.lt_of_lt_of_le hX hle1) hn1 hag1 hoff1
              (cleanB_seq X thisA args rest hthis hargs hrest)
            exact resFrame_anchor X hIH2 hX1 hX1b hle1

theorem objs_setMany_fold (dst : Addr) (ps : List (String × Value)) :
    ∀ (h : Heap) (o : Obj), h.objs dst = some o →
      (setMany h dst ps).objs dst
        = some { o with props := ps.foldl (fun l kv => setProps l kv.1 kv.2) o.props } := by
  induction ps with
  | nil =>
    intro h o ho
    show h.objs dst = some { o with props := o.props }
    rw [ho]
  | cons p rest ih =>
    intro h o ho
    have h1 := objs_setOwn_self h dst p.1 p.2 o ho
    have h2 := ih (h.setOwn dst p.1 p.2) _ h1
    exact h2

/-- One unfolding of the interpreter on a `parent`-initializer invocation
(Constructor.js lines 111-127), with the fuel left abstract. -/
theorem runTask_parentInit_step (n : Nat) (h : Heap) (pf : Value) (thisA : Addr)
    (args : List Value) (hpf : callableCode h pf = some .parentInit) :
    runTask (n + 1) (.call pf thisA args) h =
      match runTask n (.newObj (getProp h (getProp h (.ref thisA) "constructor")
          "parent") []) h with
      | .err h1 e => .err h1 e
      | .ok h1 pV =>
        match pV with
        | .ref pA =>
          match runTask n (.call (getProp h1 (.ref pA) "constructor") pA args) h1 with
          | .err h2 e => .err h2 e
          | .ok h2 _ =>
            .ok ((copyOwn h2 pA thisA).setOwn thisA "parent" (.ref pA)) (.ref thisA)
        | _ => .err h1 notCtor := by
  simp only [runTask, hpf]

theorem listHeap_avoidsOff (X : Addr) (l : List Obj)
    (hall : l.all (fun o => Obj.avoidsB X o) = true) :
    Heap.avoidsOff (listHeap l) X := by
  intro a o _ hobj
  have hmem : o ∈ l := List.get?_mem hobj
  exact List.all_eq_true.mp hall o hmem

/-- Postcondition of the amended C8, for two heaps `h`, `h'` that differ
only in the own properties of the instance `X` (its pre-set fields): the
two parent-initializer invocations build the same fresh source instance
`p` at the same address `h.next` with no own properties, delegating to the
Link Constructor's `prototype`; they invoke the same initializer value
with the same arguments against `p`; the two inner runs return the same
value, leave the instance `X` untouched (so the source's initializer
neither reads nor writes the pre-set fields), and have identical effects
on every heap cell other than `X` — in particular `p` ends identical in
both runs; both full invocations succeed, returning the instance, with
final heaps that agree everywhere except at `X`, where each instance
carries its own pre-set properties extended by the same update list. -/
def C8Post (h h' : Heap) (X lA : Addr) (pf : Value) (args : List Value)
    (fuel : Nat) (g : Heap) (o o' : Obj) : Prop :=
  getProp h' (.ref lA) "prototype" = getProp h (.ref lA) "prototype" ∧
  (h.alloc (getProp h (.ref lA) "prototype") none).1.objs h.next
      = some { props := [], proto := getProp h (.ref lA) "prototype", code := none } ∧
  (h'.alloc (getProp h (.ref lA) "prototype") none).1.objs h.next
      = some { props := [], proto := getProp h (.ref lA) "prototype", code := none } ∧
  getProp (h'.alloc (getProp h (.ref lA) "prototype") none).1 (.ref h.next)
      "constructor"
    = getProp (h.alloc (getProp h (.ref lA) "prototype") none).1 (.ref h.next)
      "constructor" ∧
  (∃ h2 h2' irv,
    runTask fuel (.call (getProp (h.alloc (getProp h (.ref lA) "prototype") none).1
        (.ref h.next) "constructor") h.next args)
      (h.alloc (getProp h (.ref lA) "prototype") none).1 = .ok h2 irv ∧
    runTask fuel (.call (getProp (h.alloc (getProp h (.ref lA) "prototype") none).1
        (.ref h.next) "constructor") h.next args)
      (h'.alloc (getProp h (.ref lA) "prototype") none).1 = .ok h2' irv ∧
    h2.objs X = h.objs X ∧ h2'.objs X = h'.objs X ∧
    (∀ a, a ≠ X → h2.objs a = h2'.objs a) ∧ h2.next = h2'.next ∧
    h2.objs h.next = h2'.objs h.next ∧
    g = (copyOwn h2 h.next X).setOwn X "parent" (.ref h.next) ∧
    runTask (fuel + 1) (.call pf X args) h'
      = .ok ((copyOwn h2' h.next X).setOwn X "parent" (.ref h.next)) (.ref X) ∧
    (∀ a, a ≠ X → g.objs a
        = ((copyOwn h2' h.next X).setOwn X "parent" (.ref h.next)).objs a) ∧
    (∃ upd : List (String × Value),
      g.objs X = some { o with props := upd.foldl (fun l kv => setProps l kv.1 kv.2) o.props } ∧
      ((copyOwn h2' h.next X).setOwn X "parent" (.ref h.next)).objs X
        = some { o' with props := upd.foldl (fun l kv => setProps l kv.1 kv.2) o'.props }))

end Lemmas

section Claims

/-- Heap with a single plain empty object at address 0 (the object
specification `{}`). -/
def emptyObjHeap : Heap := listHeap [{ props := [], proto := .undef, code := none }]

theorem emptyObjHeap_wf : emptyObjHeap.wf := by
  apply listHeap_wf
  intro o ho
  rw [List.mem_singleton] at ho
  subst ho
  decide

/-- C6: Normalize of an absent argument is the ArgumentMissing
(ReferenceError) failure; `null` and every value that is neither callable
nor a non-null object fail with the ArgumentType (TypeError) failure whose
message carries the offending runtime type and its string rendering. -/
theorem c6_normalize_error_taxonomy :
    (∀ h : Heap, ConstructorFn h .undef = .err h (.refError (ctorMsg ++ "undefined"))) ∧
    (∀ h : Heap, ConstructorFn h .vnull = .err h (.typeError (ctorMsg ++ "null"))) ∧
    (∀ (h : Heap) (v : Value), typeOf h v ≠ "function" → typeOf h v ≠ "undefined" →
      typeOf h v ≠ "object" →
      ConstructorFn h v = .err h (.typeError (ctorMsg ++
        (typeOf h v ++ " [" ++ display v ++ "]")))) :=
  ⟨ConstructorFn_undef, ConstructorFn_null, ConstructorFn_prim⟩

/-- C6 witness: `Normalize(42)` on the one-object heap fails with the
TypeError whose message names the type `number` and the value `42`. -/
theorem c6_witness :
    typeOf emptyObjHeap (.num 42) ≠ "function" ∧
    ConstructorFn emptyObjHeap (.num 42) = .err emptyObjHeap (.typeError (ctorMsg ++
      (typeOf emptyObjHeap (.num 42) ++ " [" ++ display (.num 42) ++ "]"))) :=
  ⟨by decide, c6_normalize_error_taxonomy.2.2 emptyObjHeap (.num 42)
    (by decide) (by decide) (by decide)⟩

/-- C7: `extend` with fewer than two arguments fails with the
ArgumentCount TypeError; extra arguments beyond the first two never change
the result; and on a well-formed heap a call with at least two arguments
never raises the ArgumentCount error (its failures are Normalize's). -/
theorem c7_extend_argument_count :
    (∀ (h : Heap) (args : List Value), args.length < 2 →
      extendFn h args = .err h (.typeError extendCountMsg)) ∧
    (∀ (h : Heap) (s t : Value) (r r' : List Value),
      extendFn h (s :: t :: r) = extendFn h (s :: t :: r')) ∧
    (∀ (h : Heap) (s t : Value) (r : List Value) (h' : Heap) (e : JsError), h.wf →
      extendFn h (s :: t :: r) = .err h' e → e ≠ .typeError extendCountMsg) := by
  refine ⟨?_, ?_, ?_⟩
  · intro h args hlen
    unfold extendFn
    rw [if_pos hlen]
  · intro h s t r r'
    rw [extendFn_cons, extendFn_cons]
  · intro h s t r h' e hwf he
    rw [extendFn_cons] at he
    cases hsres : normalizeSpec h s with
    | err hE e1 =>
      simp only [extendCore, hsres] at he
      cases he
      exact (normalizeSpec_err_facts _ _ _ _ hsres).2
    | ok h1 ns =>
      obtain ⟨nsA, rfl, hnsLive, hp01⟩ := normalizeSpec_ok_facts h s h1 ns hsres
      cases htres : targetNorm h h1 t with
      | err hE e1 =>
        simp only [extendCore, hsres, htres] at he
        cases he
        exact (targetNorm_err_facts _ _ _ _ _ htres).2
      | ok h2 nc =>
        obtain ⟨ncA, rfl, hncLive, hp12⟩ := targetNorm_ok_facts h h1 t h2 nc hwf hp01 htres
        have hwf2 : h2.wf := ((Pres.trans hp01 hp12) hwf).2.2
        have heq := extendCore_eq_build h s t h1 h2 nsA ncA hsres htres
          (hwf2.1 ncA hncLive)
        rw [heq] at he
        cases he

/-- C4: Normalize of a live plain object `O` returns a constructor `K`
whose Instance Template is `O` itself by reference, whose initializer is
`O`'s own `constructor` property when present and a fresh no-op function
otherwise, and mutates `O` in place so that `O.constructor` is `K`. -/
theorem c4_normalize_object_spec (h : Heap) (a : Addr) (o : Obj) (h' : Heap) (K : Value)
    (hwf : h.wf) (ho : h.objs a = some o) (hc : o.code = none)
    (hok : ConstructorFn h (.ref a) = .ok h' K) :
    ∃ kA, K = .ref kA ∧
      h'.getOwn kA "prototype" = some (.ref a) ∧
      h'.getOwn a "constructor" = some K ∧
      (∀ c, getProps o.props "constructor" = some c → K = c) ∧
      (getProps o.props "constructor" = none →
        kA = h.next ∧ h.objs h.next = none ∧ callableCode h' K = some .noop) := by
  obtain ⟨kA, hK, _, hproto, hctor, hsome, hnone, _⟩ :=
    ConstructorFn_obj_conclusions h a o h' K hwf ho hc hok
  exact ⟨kA, hK, hproto, hctor, hsome, hnone⟩

/-- C4 witness: normalizing the empty object specification at address 0
yields the fresh no-op constructor at address 1, templates and
back-references wired as claimed. -/
theorem c4_witness :
    emptyObjHeap.wf ∧ emptyObjHeap.objs 0 = some { props := [], proto := .undef, code := none } ∧
    (∃ kA, (Value.ref 1 : Value) = .ref kA ∧
      (Res.heap (ConstructorFn emptyObjHeap (.ref 0))).getOwn kA "prototype" = some (.ref 0) ∧
      (Res.heap (ConstructorFn emptyObjHeap (.ref 0))).getOwn 0 "constructor" = some (.ref 1) ∧
      (∀ c, getProps ([] : List (String × Value)) "constructor" = some c → (Value.ref 1 : Value) = c) ∧
      (getProps ([] : List (String × Value)) "constructor" = none →
        kA = emptyObjHeap.next ∧ emptyObjHeap.objs emptyObjHeap.next = none ∧
        callableCode (Res.heap (ConstructorFn emptyObjHeap (.ref 0))) (.ref 1) = some .noop)) :=
  ⟨emptyObjHeap_wf, rfl,
    c4_normalize_object_spec emptyObjHeap 0 _ _ (.ref 1) emptyObjHeap_wf rfl rfl rfl⟩

/-- C5 (amended): Normalize is the identity on callables (same value, heap
untouched); on an object specification with no own `constructor` it
synthesizes a fresh constructor at the next free address; but a repeated
call with the same object returns the previously installed constructor (the
in-place `constructor` mutation acts as a cache), so freshness holds only
for the first normalization of an object. -/
theorem c5_normalize_identity_and_caching :
    (∀ (h : Heap) (v : Value), typeOf h v = "function" → ConstructorFn h v = .ok h v) ∧
    (∀ (h : Heap) (a : Addr) (o : Obj), h.wf → h.objs a = some o → o.code = none →
      getProps o.props "constructor" = none →
      ConstructorFn h (.ref a) =
        .ok (((h.alloc .undef (some .noop)).1.setOwn h.next "prototype" (.ref a)).setOwn a
          "constructor" (.ref h.next)) (.ref h.next) ∧ h.objs h.next = none) ∧
    (∀ (h : Heap) (a : Addr) (o : Obj) (h' : Heap) (K : Value), h.wf →
      h.objs a = some o → o.code = none →
      ConstructorFn h (.ref a) = .ok h' K →
      ∃ h'', ConstructorFn h' (.ref a) = .ok h'' K) := by
  refine ⟨ConstructorFn_fnid, ?_, ?_⟩
  · intro h a o hwf ho hc hno
    refine ⟨?_, wf_objs_next h hwf⟩
    apply ConstructorFn_obj_noctor h a (typeOf_plain h a o ho hc)
    rw [Heap.getOwn, ho]
    exact hno
  · intro h a o h' K hwf ho hc hok
    obtain ⟨kA, rfl, hkLive, hproto, hctor, _, _, hp⟩ :=
      ConstructorFn_obj_conclusions h a o h' K hwf ho hc hok
    obtain ⟨o', ho', hproto', hcode'⟩ := (hp hwf).2.1 a o ho
    obtain ⟨co', hcl'⟩ := Option.isSome_iff_exists.mp hkLive
    exact ⟨_, ConstructorFn_obj_ctor h' a kA co'
      (typeOf_plain h' a o' ho' (hcode'.trans hc)) hctor hcl'⟩

/-- C5 counterexample to the claim as stated: normalizing the same object
specification twice does not produce a fresh constructor the second time —
the second call returns the constructor at address 1, which already exists
in its input heap (the first call installed it), and which is exactly the
first call's result. -/
theorem c5_counterexample :
    Res.val (ConstructorFn (Res.heap (ConstructorFn emptyObjHeap (.ref 0))) (.ref 0))
      = some (.ref 1) ∧
    ((Res.heap (ConstructorFn emptyObjHeap (.ref 0))).objs 1).isSome = true ∧
    Res.val (ConstructorFn emptyObjHeap (.ref 0)) = some (.ref 1) :=
  ⟨rfl, rfl, rfl⟩

/-- C5 witness: on the empty object specification the first normalization
does synthesize the fresh constructor at the next free address. -/
theorem c5_witness :
    emptyObjHeap.wf ∧
    (ConstructorFn emptyObjHeap (.ref 0) =
      .ok (((emptyObjHeap.alloc .undef (some .noop)).1.setOwn emptyObjHeap.next "prototype"
        (.ref 0)).setOwn 0 "constructor" (.ref emptyObjHeap.next)) (.ref emptyObjHeap.next) ∧
      emptyObjHeap.objs emptyObjHeap.next = none) :=
  ⟨emptyObjHeap_wf,
    c5_normalize_identity_and_caching.2.1 emptyObjHeap 0 _ emptyObjHeap_wf rfl rfl rfl⟩

/-- C3: the Instance Template's `constructor` property points back to the
constructor itself — both for constructors synthesized by Normalize from a
live plain object specification, and for the constructor returned by
`extend`, whose fresh prototype gets its `constructor` back-reference
restored after the copy step. -/
theorem c3_template_constructor_roundtrip :
    (∀ (h : Heap) (a : Addr) (o : Obj) (h' : Heap) (K : Value), h.wf →
      h.objs a = some o → o.code = none →
      ConstructorFn h (.ref a) = .ok h' K →
      ∃ kA, K = .ref kA ∧ h'.getOwn kA "prototype" = some (.ref a) ∧
        h'.getOwn a "constructor" = some K) ∧
    (∀ (h0 : Heap) (source target : Value) (rest : List Value) (h1 h2 : Heap)
      (nsA ncA : Addr), h0.wf →
      normalizeSpec h0 source = .ok h1 (.ref nsA) →
      targetNorm h0 h1 target = .ok h2 (.ref ncA) →
      ∃ hF npA, extendFn h0 (source :: target :: rest) = .ok hF (.ref ncA) ∧
        hF.getOwn ncA "prototype" = some (.ref npA) ∧
        hF.getOwn npA "constructor" = some (.ref ncA)) := by
  constructor
  · intro h a o h' K hwf ho hc hok
    obtain ⟨kA, hK, _, hproto, hctor, _, _, _⟩ :=
      ConstructorFn_obj_conclusions h a o h' K hwf ho hc hok
    exact ⟨kA, hK, hproto, hctor⟩
  · intro h0 source target rest h1 h2 nsA ncA hwf0 hs ht
    obtain ⟨nsA0, hnsEq, hnsLive1, hp01⟩ := normalizeSpec_ok_facts h0 source h1 _ hs
    injection hnsEq with hnsEq'
    subst hnsEq'
    obtain ⟨ncA0, hncEq, hncLive2, hp12⟩ := targetNorm_ok_facts h0 h1 target h2 _ hwf0 hp01 ht
    injection hncEq with hncEq'
    subst hncEq'
    have hwf1 : h1.wf := (hp01 hwf0).2.2
    have hwf2 : h2.wf := (hp12 hwf1).2.2
    have hnsLive2 : (h2.objs nsA).isSome := pres_live hp12 hwf1 hnsLive1
    have heq := extendCore_eq_build h0 source target h1 h2 nsA ncA hs ht
      (hwf2.1 ncA hncLive2)
    obtain ⟨_, _, _, _, _, hKproto, hnpCtor, _, _, _, _⟩ :=
      extendBuild_facts h2 (typeOf h0 target) nsA ncA hwf2 hncLive2 hnsLive2
    exact ⟨(extendBuild h2 (typeOf h0 target) nsA ncA).1, h2.next + 1,
      by rw [extendFn_cons]; exact heq, hKproto, hnpCtor⟩

/-- C1: the first invocation of an instance's parent initializer reads
`this.constructor.parent` (the Link Constructor), builds a fresh `p` by the
`new` protocol against it, runs `p.constructor` — the source's initializer —
bound to `p` with exactly the invocation's arguments, copies every own
enumerable property of `p` onto the instance (shallow), and installs `p` as
the instance's own `parent` data property shadowing the inherited function,
so a second invocation through `this.parent` hits a non-callable value:
the operation is effectively single-use per instance. -/
theorem c1_parent_initializer (h : Heap) (thisA : Addr) (args : List Value)
    (pf : Value) (lA : Addr) (fuel : Nat) (h' : Heap) (rv : Value)
    (hwf : h.wf) (hthis : (h.objs thisA).isSome)
    (hpf : callableCode h pf = some .parentInit)
    (hL : getProp h (getProp h (.ref thisA) "constructor") "parent" = .ref lA)
    (hLcode : callableCode h (.ref lA) = some .noop)
    (hrun : runTask (fuel + 1) (.call pf thisA args) h = .ok h' rv) :
    C1Post h thisA args lA fuel h' rv := by
  have hthisLt : thisA < h.next := hwf.1 thisA hthis
  have hLcode' : (h.objs lA).bind (fun o => o.code) = some Code.noop := hLcode
  obtain ⟨lo, hlo, hloc⟩ : ∃ lo, h.objs lA = some lo ∧ lo.code = some Code.noop := by
    cases hob : h.objs lA with
    | none => rw [hob] at hLcode'; cases hLcode'
    | some o => rw [hob] at hLcode'; exact ⟨o, rfl, hLcode'⟩
  have hlALt : lA < h.next := hwf.1 lA (by simp [hlo])
  simp only [runTask, hpf, hL] at hrun
  cases fuel with
  | zero =>
    simp only [runTask] at hrun
    cases hrun
  | succ f =>
    cases f with
    | zero =>
      simp only [runTask, hLcode] at hrun
      cases hrun
    | succ g =>
      rw [runTask_new_noop_fuel g h lA lo hlo hloc (Nat.ne_of_lt hlALt)] at hrun
      simp only [snd_alloc] at hrun
      split at hrun
      · cases hrun
      · rename_i h2 r2 hInit
        injection hrun with hrunH hrunV
        subst hrunH
        subst hrunV
        have hwf1 : (h.alloc (getProp h (.ref lA) "prototype") none).1.wf :=
          wf_alloc h _ none hwf
        have hpres12 : Pres (h.alloc (getProp h (.ref lA) "prototype") none).1 h2 := by
          have := pres_runTask (g + 1 + 1)
            (.call (getProp (h.alloc (getProp h (.ref lA) "prototype") none).1
              (.ref h.next) "constructor") h.next args)
            (h.alloc (getProp h (.ref lA) "prototype") none).1
          rw [hInit] at this
          exact this
        have hwf2 : h2.wf := (hpres12 hwf1).2.2
        have hthisLive1 : ((h.alloc (getProp h (.ref lA) "prototype") none).1.objs
            thisA).isSome := pres_live (pres_alloc h _ none) hwf hthis
        have hthisLive2 : (h2.objs thisA).isSome := pres_live hpres12 hwf1 hthisLive1
        have hpObj1 : (h.alloc (getProp h (.ref lA) "prototype") none).1.objs h.next
            = some { props := [], proto := getProp h (.ref lA) "prototype", code := none } :=
          objs_alloc_self h _ none
        obtain ⟨po2, hpo2, hpo2p, hpo2c⟩ := (hpres12 hwf1).2.1 h.next _ hpObj1
        have hneTN : thisA ≠ h.next := Nat.ne_of_lt hthisLt
        have hneNT : h.next ≠ thisA := Nat.ne_of_gt hthisLt
        have hpoF : ((copyOwn h2 h.next thisA).setOwn thisA "parent"
            (.ref h.next)).objs h.next = some po2 := by
          rw [objs_setOwn_ne _ _ _ _ _ hneNT, objs_copyOwn_ne _ _ _ _ hneNT]
          exact hpo2
        refine ⟨rfl, wf_objs_next h hwf, ⟨h2, r2, hInit, rfl⟩,
          ⟨po2, hpoF, hpo2p, hpo2c⟩, ?_, ?_, ?_⟩
        · intro k v hk hv
          have hv2 : h2.getOwn h.next k = some v := by
            rw [getOwn_setOwn_ne_addr _ _ _ _ _ _ hneNT] at hv
            rw [Heap.getOwn, objs_copyOwn_ne _ _ _ _ hneNT] at hv
            rw [Heap.getOwn]
            exact hv
          rw [getOwn_setOwn_ne_key _ _ _ _ _ hk]
          exact copyOwn_getOwn h2 h.next thisA hneTN hwf2 hthisLive2 k v hv2
        · obtain ⟨oT, hoT⟩ := Option.isSome_iff_exists.mp
            (pres_live (pres_copyOwn h2 h.next thisA) hwf2 hthisLive2)
          exact getOwn_setOwn_self _ thisA "parent" (.ref h.next) oT hoT
        · intro g2 args2
          have hcc : callableCode ((copyOwn h2 h.next thisA).setOwn thisA "parent"
              (.ref h.next)) (.ref h.next) = none := by
            simp [callableCode, hpoF, hpo2c]
          simp only [runTask, hcc]

/-- Concrete heap for the C1 witness: an uninitialized instance at 0
delegating to the template at 1, which carries the extended constructor (2),
the Link Constructor (3), the parent initializer function (4), the source's
template (5) and the source constructor (6). -/
def c1Heap : Heap := listHeap [
  { props := [], proto := .ref 1, code := none },
  { props := [("constructor", .ref 2), ("parent", .ref 4)], proto := .undef, code := none },
  { props := [("prototype", .ref 1), ("parent", .ref 3)], proto := .undef,
    code := some (.user [.callParent [.cst (.num 7)]]) },
  { props := [("prototype", .ref 5)], proto := .undef, code := some .noop },
  { props := [], proto := .undef, code := some .parentInit },
  { props := [("constructor", .ref 6)], proto := .undef, code := none },
  { props := [("prototype", .ref 5)], proto := .undef,
    code := some (.user [.assignThis "x" (.argIdx 0), .assignThis "kind" (.cst (.str "source"))]) }]

theorem c1Heap_wf : c1Heap.wf := by
  apply listHeap_wf
  intro o ho
  fin_cases ho <;> decide

/-- C1 witness: on the concrete heap, invoking the parent initializer at 4
on the instance at 0 with argument 7 satisfies the whole C1 postcondition. -/
theorem c1_witness :
    c1Heap.wf ∧
    callableCode c1Heap (.ref 4) = some Code.parentInit ∧
    getProp c1Heap (getProp c1Heap (.ref 0) "constructor") "parent" = .ref 3 ∧
    C1Post c1Heap 0 [.num 7] 3 5
      (Res.heap (runTask 6 (.call (.ref 4) 0 [.num 7]) c1Heap)) (.ref 0) :=
  ⟨c1Heap_wf, rfl, rfl,
    c1_parent_initializer c1Heap 0 [.num 7] (.ref 4) 3 5
      (Res.heap (runTask 6 (.call (.ref 4) 0 [.num 7]) c1Heap)) (.ref 0)
      c1Heap_wf rfl rfl rfl rfl rfl⟩

/-- Concrete heap for the C8 counterexample: source constructor at 1
(body `function (oo) { this.seen = oo.flag; }`), source template at 0,
target object specification at 2 whose constructor at 3 pre-sets
`this.flag` from the invocation argument and then calls
`this.parent(this)` — passing the instance itself to the parent
initializer. -/
def c8CexHeap : Heap := listHeap [
  { props := [("constructor", .ref 1)], proto := .undef, code := none },
  { props := [("prototype", .ref 0)], proto := .undef,
    code := some (.user [.assignThis "seen" (.argProp 0 "flag")]) },
  { props := [("constructor", .ref 3)], proto := .undef, code := none },
  { props := [], proto := .undef,
    code := some (.user [.assignThis "flag" (.argIdx 0), .callParent [.athis]]) }]

/-- One full run of the C8 counterexample: extend the source onto the
object target, then create one instance of the extended constructor (it
lands at address 7) with the pre-set field value `v`. -/
def c8CexRun (v : Value) : Res :=
  runTask 10 (.newObj (.ref 3) [v]) (Res.heap (extendFn c8CexHeap [.ref 1, .ref 2]))

/-- C8 counterexample to the claim as stated: when the target's
constructor passes the instance to the parent initializer
(`this.parent(this)`), the own field `flag` it pre-set before that call
does influence the source's initializer — two instances differing only in
the pre-set `flag` make the source initializer observe different values
(recorded in `seen`), refuting the unconditional claim that pre-set
fields never influence the source initializer.  (The invisibility claim
holds only for what the source initializer can reach from `this`, which
is the fresh object `p`: see the amended theorem.) -/
theorem c8_counterexample :
    Res.val (c8CexRun (.num 1)) = some (.ref 7) ∧
    (Res.heap (c8CexRun (.num 1))).getOwn 7 "flag" = some (.num 1) ∧
    (Res.heap (c8CexRun (.num 2))).getOwn 7 "flag" = some (.num 2) ∧
    (Res.heap (c8CexRun (.num 1))).getOwn 7 "seen" = some (.num 1) ∧
    (Res.heap (c8CexRun (.num 2))).getOwn 7 "seen" = some (.num 2) ∧
    some (Value.num 1) ≠ some (Value.num 2) :=
  ⟨rfl, rfl, rfl, rfl, rfl, by decide⟩

/-- C8 (amended): pre-set instance fields are invisible to the source's
initializer through `this`, in full generality.  For any instance address
`X` of any heap, any pre-set own-property lists (two heaps agreeing
everywhere except on `X`'s own properties, neither overriding
`constructor`), any extended-constructor machinery resolving
`this.constructor.parent` to a no-op Link Constructor, any source
initializer, and any arguments — provided neither the arguments nor any
other heap object references the instance, as holds for a freshly
constructed one — a successful parent-initializer invocation satisfies
`C8Post`: both runs build the same fresh `p` delegating to the Link
Constructor's `prototype` and run the same initializer against it with
the same arguments; the inner run leaves the instance untouched and its
entire result (value, `p`, every other heap cell) is identical in both
runs; and the final instances differ only in their pre-set fields, both
extended by the same updates.  Without the no-reference proviso the claim
is false (see the counterexample `this.parent(this)`). -/
theorem c8_preset_noninterference (h h' : Heap) (X lA : Addr) (pf : Value)
    (args : List Value) (fuel : Nat) (g : Heap) (rv : Value) (o o' : Obj)
    (hwf : h.wf)
    (hnext : h.next = h'.next)
    (hagree : ∀ a, a ≠ X → h.objs a = h'.objs a)
    (havoid : Heap.avoidsOff h X)
    (ho : h.objs X = some o) (ho2 : h'.objs X = some o')
    (hproto : o.proto = o'.proto)
    (hpavoid : Value.avoids X o.proto = true)
    (hctor : getProps o.props "constructor" = none)
    (hctor2 : getProps o'.props "constructor" = none)
    (hpf : callableCode h pf = some .parentInit)
    (hpfA : Value.avoids X pf = true)
    (hargs : args.all (Value.avoids X) = true)
    (hL : getProp h (getProp h (.ref X) "constructor") "parent" = .ref lA)
    (hLcode : callableCode h (.ref lA) = some .noop)
    (hrun : runTask (fuel + 1) (.call pf X args) h = .ok g rv) :
    rv = .ref X ∧ C8Post h h' X lA pf args fuel g o o' := by
  have hX : X < h.next := hwf.1 X (by simp [ho])
  have hXne : X ≠ h.next := Nat.ne_of_lt hX
  have hstep1 : getPropFuel h (h.next + 1) (.ref X) "constructor"
      = getPropFuel h h.next o.proto "constructor" := by
    simp only [getPropFuel, ho, hctor]
  have hstep2 : getPropFuel h' (h'.next + 1) (.ref X) "constructor"
      = getPropFuel h' h'.next o'.proto "constructor" := by
    simp only [getPropFuel, ho2, hctor2]
  have hff := getPropFuel_frame X h h' hagree havoid h.next o.proto "constructor" hpavoid
  have hCV1 : getProp h (.ref X) "constructor" = getProp h' (.ref X) "constructor" := by
    unfold getProp
    rw [hstep1, hstep2, ← hnext, ← hproto]
    exact hff.1
  have hCVa : Value.avoids X (getProp h (.ref X) "constructor") = true := by
    unfold getProp
    rw [hstep1]
    exact hff.2
  have hPV := getProp_frame X h h' hnext hagree havoid
    (getProp h (.ref X) "constructor") "parent" hCVa
  have hlA : lA ≠ X := by
    have hh := hPV.2
    rw [hL] at hh
    exact of_decide_eq_true hh
  have hL2 : getProp h' (getProp h' (.ref X) "constructor") "parent" = .ref lA := by
    rw [← hCV1, ← hPV.1]
    exact hL
  have hLc' : (h.objs lA).bind (fun ob => ob.code) = some Code.noop := hLcode
  obtain ⟨lo, hlo, hloc⟩ : ∃ lo, h.objs lA = some lo ∧ lo.code = some Code.noop := by
    cases hob : h.objs lA with
    | none => rw [hob] at hLc'; cases hLc'
    | some oL => rw [hob] at hLc'; exact ⟨oL, rfl, hLc'⟩
  have hlALt : lA < h.next := hwf.1 lA (by simp [hlo])
  have hlo2 : h'.objs lA = some lo := by
    rw [← hagree lA hlA]
    exact hlo
  have hLP := getProp_frame X h h' hnext hagree havoid (.ref lA) "prototype"
    (decide_eq_true hlA)
  have hpf2 : callableCode h' pf = some .parentInit := by
    rw [← callableCode_frame X h h' hagree pf hpfA]
    exact hpf
  have hnext1 : (h.alloc (getProp h (.ref lA) "prototype") none).1.next
      = (h'.alloc (getProp h (.ref lA) "prototype") none).1.next := by
    rw [next_alloc, next_alloc, hnext]
  have hagree1 := agree_alloc X hnext hagree (getProp h (.ref lA) "prototype") none
  have hoff1 := avoidsOff_alloc h X (getProp h (.ref lA) "prototype") none hLP.2 rfl havoid
  have hX1 : X < (h.alloc (getProp h (.ref lA) "prototype") none).1.next :=
    Nat.lt_succ_of_lt hX
  have hKV := getProp_frame X (h.alloc (getProp h (.ref lA) "prototype") none).1
    (h'.alloc (getProp h (.ref lA) "prototype") none).1 hnext1 hagree1 hoff1
    (.ref h.next) "constructor" (decide_eq_true (Ne.symm hXne))
  simp only [runTask, hpf, hL] at hrun
  cases fuel with
  | zero =>
    simp only [runTask] at hrun
    cases hrun
  | succ f2 =>
    cases f2 with
    | zero =>
      simp only [runTask, hLcode] at hrun
      cases hrun
    | succ g2 =>
      rw [runTask_new_noop_fuel g2 h lA lo hlo hloc (Nat.ne_of_lt hlALt)] at hrun
      simp only [snd_alloc] at hrun
      have hframe := runTask_frame X (g2 + 1 + 1)
        (.call (getProp (h.alloc (getProp h (.ref lA) "prototype") none).1
          (.ref h.next) "constructor") h.next args)
        (h.alloc (getProp h (.ref lA) "prototype") none).1
        (h'.alloc (getProp h (.ref lA) "prototype") none).1
        hX1 hnext1 hagree1 hoff1
        (cleanB_call X _ h.next args hKV.2 (Ne.symm hXne) hargs)
      split at hrun
      · cases hrun
      · rename_i h2 r2 hInit
        injection hrun with hg hrv
        rw [hInit] at hframe
        cases hrB : runTask (g2 + 1 + 1)
            (.call (getProp (h.alloc (getProp h (.ref lA) "prototype") none).1
              (.ref h.next) "constructor") h.next args)
            (h'.alloc (getProp h (.ref lA) "prototype") none).1 with
        | err hE e =>
          rw [hrB] at hframe
          exact hframe.elim
        | ok h2' r2' =>
          rw [hrB] at hframe
          obtain ⟨hveq, hva, hfr⟩ := hframe
          cases hveq
          obtain ⟨hn2, hag2, hoff2, hoX2a, hoX2b, hle2⟩ := hfr
          have hp1 : (h.alloc (getProp h (.ref lA) "prototype") none).1.objs h.next
              = some { props := [], proto := getProp h (.ref lA) "prototype", code := none } :=
            objs_alloc_self h _ none
          have hwf1 : (h.alloc (getProp h (.ref lA) "prototype") none).1.wf :=
            wf_alloc h _ none hwf
          have hpres : Pres (h.alloc (getProp h (.ref lA) "prototype") none).1 h2 := by
            have hpr := pres_runTask (g2 + 1 + 1)
              (.call (getProp (h.alloc (getProp h (.ref lA) "prototype") none).1
                (.ref h.next) "constructor") h.next args)
              (h.alloc (getProp h (.ref lA) "prototype") none).1
            rw [hInit] at hpr
            exact hpr
          obtain ⟨p2, hp2, _, _⟩ := (hpres hwf1).2.1 h.next _ hp1
          have hp2b : h2'.objs h.next = some p2 := by
            rw [← hag2 h.next (Ne.symm hXne)]
            exact hp2
          have hX2 : h2.objs X = h.objs X :=
            hoX2a.trans (objs_alloc_ne h _ none X hXne)
          have hX2b : h2'.objs X = h'.objs X :=
            hoX2b.trans (objs_alloc_ne h' _ none X (by rw [← hnext]; exact hXne))
          have hlAne2 : lA ≠ h'.next := by
            rw [← hnext]
            exact Nat.ne_of_lt hlALt
          have hrun2 : runTask (g2 + 1 + 1 + 1) (.call pf X args) h'
              = .ok ((copyOwn h2' h.next X).setOwn X "parent" (.ref h.next)) (.ref X) := by
            rw [runTask_parentInit_step (g2 + 1 + 1) h' pf X args hpf2, hL2,
              runTask_new_noop_fuel g2 h' lA lo hlo2 hloc hlAne2]
            simp only [snd_alloc, ← hLP.1, ← hnext, ← hKV.1, hrB]
          have hfinagree : ∀ a, a ≠ X →
              ((copyOwn h2 h.next X).setOwn X "parent" (.ref h.next)).objs a
                = ((copyOwn h2' h.next X).setOwn X "parent" (.ref h.next)).objs a := by
            intro a ha
            rw [objs_setOwn_ne _ X "parent" (.ref h.next) a ha,
              objs_copyOwn_ne h2 h.next X a ha,
              objs_setOwn_ne _ X "parent" (.ref h.next) a ha,
              objs_copyOwn_ne h2' h.next X a ha]
            exact hag2 a ha
          have hgX : ((copyOwn h2 h.next X).setOwn X "parent" (.ref h.next)).objs X
              = some { o with props := ((p2.props ++ [("parent", Value.ref h.next)]).foldl (fun l kv => setProps l kv.1 kv.2) o.props) } := by
            have hcopy : (copyOwn h2 h.next X).objs X
                = some { o with props := p2.props.foldl (fun l kv => setProps l kv.1 kv.2) o.props } := by
              rw [copyOwn, hp2]
              exact objs_setMany_fold X p2.props h2 o (hX2.trans ho)
            rw [objs_setOwn_self _ X "parent" (.ref h.next) _ hcopy, List.foldl_append]
            rfl
          have hgX2 : ((copyOwn h2' h.next X).setOwn X "parent" (.ref h.next)).objs X
              = some { o' with props := ((p2.props ++ [("parent", Value.ref h.next)]).foldl (fun l kv => setProps l kv.1 kv.2) o'.props) } := by
            have hcopy : (copyOwn h2' h.next X).objs X
                = some { o' with props := p2.props.foldl (fun l kv => setProps l kv.1 kv.2) o'.props } := by
              rw [copyOwn, hp2b]
              exact objs_setMany_fold X p2.props h2' o' (hX2b.trans ho2)
            rw [objs_setOwn_self _ X "parent" (.ref h.next) _ hcopy, List.foldl_append]
            rfl
          subst hg
          refine ⟨hrv.symm, hLP.1.symm, hp1, ?_, hKV.1.symm,
            h2, h2', r2, hInit, hrB, hX2, hX2b, hag2, hn2,
            hag2 h.next (Ne.symm hXne), rfl, hrun2, hfinagree,
            ⟨p2.props ++ [("parent", Value.ref h.next)], hgX, hgX2⟩⟩
          rw [hnext]
          exact objs_alloc_self h' _ none

/-- Machinery shared by the two C8 witness heaps: instance template at 1
(carrying the extended constructor at 2 and the parent initializer at 4),
extended constructor at 2, Link Constructor at 3 grafted onto the source
template at 5, parent initializer function at 4, source template at 5,
and source constructor at 6. -/
def c8WTail : List Obj := [
  { props := [("constructor", .ref 2), ("parent", .ref 4)], proto := .undef, code := none },
  { props := [("prototype", .ref 1), ("parent", .ref 3)], proto := .undef,
    code := some (.user [.callParent [.cst (.num 7)]]) },
  { props := [("prototype", .ref 5)], proto := .undef, code := some .noop },
  { props := [], proto := .undef, code := some .parentInit },
  { props := [("constructor", .ref 6)], proto := .undef, code := none },
  { props := [("prototype", .ref 5)], proto := .undef,
    code := some (.user [.assignThis "x" (.argIdx 0), .assignThis "kind" (.cst (.str "source"))]) }]

/-- C8 witness heap A: the instance at 0 with the pre-set field `flag = 1`. -/
def c8WHeapA : Heap :=
  listHeap ({ props := [("flag", .num 1)], proto := .ref 1, code := none } :: c8WTail)

/-- C8 witness heap B: the same heap except the pre-set field is `flag = 2`. -/
def c8WHeapB : Heap :=
  listHeap ({ props := [("flag", .num 2)], proto := .ref 1, code := none } :: c8WTail)

theorem c8WHeapA_wf : c8WHeapA.wf := by
  apply listHeap_wf
  intro o ho
  simp only [c8WTail] at ho
  fin_cases ho <;> decide

theorem c8W_agree : ∀ a, a ≠ 0 → c8WHeapA.objs a = c8WHeapB.objs a := by
  intro a ha
  cases a with
  | zero => exact absurd rfl ha
  | succ n => rfl

theorem c8WHeapA_avoids : Heap.avoidsOff c8WHeapA 0 :=
  listHeap_avoidsOff 0 _ (by decide)

/-- C8 witness: on the two concrete heaps differing only in the
instance's pre-set `flag` (1 versus 2), a parent-initializer invocation
on the instance at 0 with argument 7 returns the instance and satisfies
the whole amended postcondition. -/
theorem c8_witness :
    c8WHeapA.wf ∧
    (∀ a, a ≠ 0 → c8WHeapA.objs a = c8WHeapB.objs a) ∧
    c8WHeapA.getOwn 0 "flag" = some (.num 1) ∧
    c8WHeapB.getOwn 0 "flag" = some (.num 2) ∧
    ((.ref 0 : Value) = .ref 0 ∧
      C8Post c8WHeapA c8WHeapB 0 3 (.ref 4) [.num 7] 5
        (Res.heap (runTask 6 (.call (.ref 4) 0 [.num 7]) c8WHeapA))
        { props := [("flag", .num 1)], proto := .ref 1, code := none }
        { props := [("flag", .num 2)], proto := .ref 1, code := none }) :=
  ⟨c8WHeapA_wf, c8W_agree, rfl, rfl,
    c8_preset_noninterference c8WHeapA c8WHeapB 0 3 (.ref 4) [.num 7] 5
      (Res.heap (runTask 6 (.call (.ref 4) 0 [.num 7]) c8WHeapA)) (.ref 0)
      { props := [("flag", .num 1)], proto := .ref 1, code := none }
      { props := [("flag", .num 2)], proto := .ref 1, code := none }
      c8WHeapA_wf rfl c8W_agree c8WHeapA_avoids
      rfl rfl rfl (by decide) rfl rfl rfl (by decide) (by decide) rfl rfl rfl⟩

/-- Concrete heap for extend witnesses: a no-op source constructor at 0
with Instance Template at 1, and a plain-object target specification at 2. -/
def c3Heap : Heap := listHeap [
  { props := [("prototype", .ref 1)], proto := .undef, code := some .noop },
  { props := [], proto := .undef, code := none },
  { props := [], proto := .undef, code := none }]

theorem c3Heap_wf : c3Heap.wf := by
  apply listHeap_wf
  intro o ho
  fin_cases ho <;> decide

/-- C3 witness: extending the concrete source constructor with the plain
object target yields the constructor at 3 whose fresh template at 4 points
back to it. -/
theorem c3_witness :
    c3Heap.wf ∧
    normalizeSpec c3Heap (.ref 0) = .ok c3Heap (.ref 0) ∧
    (∃ hF npA, extendFn c3Heap [.ref 0, .ref 2] = .ok hF (.ref 3) ∧
      hF.getOwn 3 "prototype" = some (.ref npA) ∧
      hF.getOwn npA "constructor" = some (.ref 3)) :=
  ⟨c3Heap_wf, rfl, c3_template_constructor_roundtrip.2 c3Heap (.ref 0) (.ref 2) []
    c3Heap _ 0 3 c3Heap_wf rfl rfl⟩

theorem getProp_stage4_own (h2 : Heap) (nsA ncA : Addr) (PV : Value)
    (hwf2 : h2.wf) (hnsLive : (h2.objs nsA).isSome)
    (hPV : h2.getOwn nsA "prototype" = some PV) :
    getProp ((h2.alloc .undef (some .noop)).1.setOwn ncA "parent" (.ref h2.next))
      (.ref nsA) "prototype" = PV := by
  have hnsLt : nsA < h2.next := hwf2.1 nsA hnsLive
  rw [Heap.getOwn] at hPV
  cases ho2 : h2.objs nsA with
  | none => rw [ho2] at hPV; cases hPV
  | some o2 =>
    rw [ho2] at hPV
    have hobjsA : (h2.alloc Value.undef (some Code.noop)).1.objs nsA = some o2 := by
      rw [objs_alloc_ne _ _ _ _ (Nat.ne_of_lt hnsLt), ho2]
    by_cases hcase : nsA = ncA
    · subst hcase
      have hsetA : ((h2.alloc Value.undef (some Code.noop)).1.setOwn nsA "parent"
          (.ref h2.next)).objs nsA
          = some { o2 with props := setProps o2.props "parent" (.ref h2.next) } :=
        objs_setOwn_self _ nsA "parent" (.ref h2.next) o2 hobjsA
      exact getProp_own _ nsA _ "prototype" PV hsetA
        (by rw [getProps_setProps_ne o2.props "parent" "prototype" _ (by decide)]; exact hPV)
    · have hobjs : ((h2.alloc Value.undef (some Code.noop)).1.setOwn ncA "parent"
          (.ref h2.next)).objs nsA = some o2 := by
        rw [objs_setOwn_ne _ _ _ _ _ hcase, objs_alloc_ne _ _ _ _ (Nat.ne_of_lt hnsLt), ho2]
      exact getProp_own _ nsA o2 "prototype" PV hobjs hPV

/-- C2 (amended): after a successful `extend` whose normalized source and
normalized target are distinct, the returned constructor's `parent` is a
fresh Link Constructor — never the source itself — and the Link
Constructor's Instance Template is reference-equal to the normalized
source's Instance Template. (Without the distinctness proviso the claim
fails: see the counterexample, where extending a function by itself points
the link at the function's old template while the function's template is
replaced.) -/
theorem c2_link_constructor (h0 : Heap) (source target : Value) (rest : List Value)
    (h1 h2 : Heap) (nsA ncA sA : Addr) (PV : Value)
    (hwf0 : h0.wf)
    (hsrc : source = .ref sA) (hsLive : (h0.objs sA).isSome)
    (hs : normalizeSpec h0 source = .ok h1 (.ref nsA))
    (ht : targetNorm h0 h1 target = .ok h2 (.ref ncA))
    (hPV : h2.getOwn nsA "prototype" = some PV)
    (hne : nsA ≠ ncA) :
    ∃ hF fA, extendFn h0 (source :: target :: rest) = .ok hF (.ref ncA) ∧
      hF.getOwn ncA "parent" = some (.ref fA) ∧
      (Value.ref fA) ≠ source ∧ fA ≠ nsA ∧
      (∃ fo, hF.objs fA = some fo ∧ fo.code = some Code.noop ∧
        getProps fo.props "prototype" = some PV) ∧
      hF.getOwn nsA "prototype" = some PV := by
  obtain ⟨nsA0, hnsEq, hnsLive1, hp01⟩ := normalizeSpec_ok_facts h0 source h1 _ hs
  injection hnsEq with hnsEq'
  subst hnsEq'
  obtain ⟨ncA0, hncEq, hncLive2, hp12⟩ := targetNorm_ok_facts h0 h1 target h2 _ hwf0 hp01 ht
  injection hncEq with hncEq'
  subst hncEq'
  have hwf1 : h1.wf := (hp01 hwf0).2.2
  have hwf2 : h2.wf := (hp12 hwf1).2.2
  have hnsLive2 : (h2.objs nsA).isSome := pres_live hp12 hwf1 hnsLive1
  have heq := extendCore_eq_build h0 source target h1 h2 nsA ncA hs ht
    (hwf2.1 ncA hncLive2)
  obtain ⟨_, _, _, _, hKparent, _, _, _, _, hFo, _, hNsKeep⟩ :=
    extendBuild_facts h2 (typeOf h0 target) nsA ncA hwf2 hncLive2 hnsLive2
  obtain ⟨fo, hfo1, hfo2, hfo3⟩ := hFo
  rw [getProp_stage4_own h2 nsA ncA PV hwf2 hnsLive2 hPV] at hfo3
  have hsLt : sA < h0.next := hwf0.1 sA hsLive
  have h01 : h0.next ≤ h1.next := (hp01 hwf0).1
  have h12 : h1.next ≤ h2.next := (hp12 hwf1).1
  refine ⟨(extendBuild h2 (typeOf h0 target) nsA ncA).1, h2.next,
    by rw [extendFn_cons]; exact heq, hKparent, ?_, ?_, ⟨fo, hfo1, hfo2, hfo3⟩, ?_⟩
  · rw [hsrc]
    intro hcontra
    injection hcontra with hcontra'
    exact absurd hcontra' (Nat.ne_of_gt (by exact Nat.lt_of_lt_of_le hsLt (le_trans h01 h12)))
  · exact Nat.ne_of_gt (hwf2.1 nsA hnsLive2)
  · rw [hNsKeep hne]
    exact hPV

/-- Concrete heap for the C2 counterexample: a function at 1 whose Instance
Template is the object at 0. -/
def c2Heap : Heap := listHeap [
  { props := [("constructor", .ref 1)], proto := .undef, code := none },
  { props := [("prototype", .ref 0)], proto := .undef, code := some .noop }]

/-- C2 counterexample to the claim as stated: `extend(f, f)` succeeds and
returns `f` itself; `f.parent` is the Link Constructor at 2, whose
Instance Template is still `f`'s old template (address 0), while the
normalized source `f` now has the fresh template at 3 — the two are not
reference-equal, refuting the claim for source-equal-target calls. -/
theorem c2_counterexample :
    Res.val (extendFn c2Heap [.ref 1, .ref 1]) = some (.ref 1) ∧
    (Res.heap (extendFn c2Heap [.ref 1, .ref 1])).getOwn 1 "parent" = some (.ref 2) ∧
    (Res.heap (extendFn c2Heap [.ref 1, .ref 1])).getOwn 2 "prototype" = some (.ref 0) ∧
    (Res.heap (extendFn c2Heap [.ref 1, .ref 1])).getOwn 1 "prototype" = some (.ref 3) ∧
    (Value.ref 0 : Value) ≠ .ref 3 :=
  ⟨rfl, rfl, rfl, rfl, by decide⟩

/-- C2 witness: a distinct source and target on the concrete heap — the
link constructor at 4 is fresh, distinct from the source, and shares the
source's template at address 1. -/
theorem c2_witness :
    c3Heap.wf ∧
    (Res.heap (ConstructorFn c3Heap (.ref 2))).getOwn 0 "prototype" = some (.ref 1) ∧
    (∃ hF fA, extendFn c3Heap [.ref 0, .ref 2] = .ok hF (.ref 3) ∧
      hF.getOwn 3 "parent" = some (.ref fA) ∧
      (Value.ref fA) ≠ .ref 0 ∧ fA ≠ 0 ∧
      (∃ fo, hF.objs fA = some fo ∧ fo.code = some Code.noop ∧
        getProps fo.props "prototype" = some (.ref 1)) ∧
      hF.getOwn 0 "prototype" = some (.ref 1)) :=
  ⟨c3Heap_wf, rfl, c2_link_constructor c3Heap (.ref 0) (.ref 2) [] c3Heap _ 0 3 0 (.ref 1)
    c3Heap_wf rfl rfl rfl rfl rfl (by decide)⟩

/-- C9 (amended): Normalize never mutates the heap on an erroring call; an
erroring `extend` leaves the heap either untouched (argument-count check or
source-normalization failure) or exactly as the successful normalization of
the source left it (target-normalization failure) — so the target
specification is never mutated by an erroring call, but the source
specification may already have been. -/
theorem c9_failfast_amended :
    (∀ (h : Heap) (v : Value) (h' : Heap) (e : JsError),
      ConstructorFn h v = .err h' e → h' = h) ∧
    (∀ (h : Heap) (args : List Value) (h' : Heap) (e : JsError), h.wf →
      extendFn h args = .err h' e →
      h' = h ∨ ∃ v1, normalizeSpec h (args.getD 0 .undef) = .ok h' v1) := by
  constructor
  · intro h v h' e he
    exact (ConstructorFn_err_facts h v h' e he).1
  · intro h args h' e hwf he
    match args with
    | [] =>
      unfold extendFn at he
      rw [if_pos (by decide)] at he
      cases he
      exact Or.inl rfl
    | [v] =>
      unfold extendFn at he
      rw [if_pos (show ([v] : List Value).length < 2 by simp)] at he
      cases he
      exact Or.inl rfl
    | s :: t :: r =>
      rw [extendFn_cons] at he
      cases hsres : normalizeSpec h s with
      | err hE e1 =>
        simp only [extendCore, hsres] at he
        cases he
        exact Or.inl (normalizeSpec_err_facts _ _ _ _ hsres).1
      | ok hA ns =>
        obtain ⟨nsA, rfl, hnsLive, hp01⟩ := normalizeSpec_ok_facts h s hA ns hsres
        cases htres : targetNorm h hA t with
        | err hE e1 =>
          simp only [extendCore, hsres, htres] at he
          cases he
          right
          rw [(targetNorm_err_facts _ _ _ _ _ htres).1]
          exact ⟨.ref nsA, hsres⟩
        | ok hB nc =>
          obtain ⟨ncA, rfl, hncLive, hp12⟩ := targetNorm_ok_facts h hA t hB nc hwf hp01 htres
          have hwfB : hB.wf := ((Pres.trans hp01 hp12) hwf).2.2
          have heq := extendCore_eq_build h s t hA hB nsA ncA hsres htres
            (hwfB.1 ncA hncLive)
          rw [heq] at he
          cases he

/-- C9 counterexample to the claim as stated: `extend({}, 42)` errors (the
target is not a valid specification), yet the erroring call has already
mutated the caller-supplied source specification — the object at 0 gained
an own `constructor` property it did not have before. -/
theorem c9_counterexample :
    Res.val (extendFn emptyObjHeap [.ref 0, .num 42]) = none ∧
    (Res.heap (extendFn emptyObjHeap [.ref 0, .num 42])).getOwn 0 "constructor"
      = some (.ref 1) ∧
    emptyObjHeap.getOwn 0 "constructor" = none :=
  ⟨rfl, rfl, rfl⟩

/-- C9 witness: the amended fail-fast statement at the concrete erroring
call — the final heap is exactly the source-normalization result. -/
theorem c9_witness :
    emptyObjHeap.wf ∧
    ((Res.heap (extendFn emptyObjHeap [.ref 0, .num 42])) = emptyObjHeap ∨
      ∃ v1, normalizeSpec emptyObjHeap (([.ref 0, .num 42] : List Value).getD 0 .undef)
        = .ok (Res.heap (extendFn emptyObjHeap [.ref 0, .num 42])) v1) :=
  ⟨emptyObjHeap_wf,
    c9_failfast_amended.2 emptyObjHeap [.ref 0, .num 42]
      (Res.heap (extendFn emptyObjHeap [.ref 0, .num 42]))
      (.typeError (ctorMsg ++ ("number" ++ " [" ++ "42" ++ "]"))) emptyObjHeap_wf rfl⟩

/-- C10 (amended): when the target of `extend` is a callable — including a
self-extension, where the normalized source is the target itself — its
Instance Template is replaced wholesale by a fresh template: the new
template carries no own property besides `constructor` and `parent` (the
copy step runs only for object targets, so no own property of the old
template is copied), is a fresh object distinct from the old template, and
delegates to the normalized source's `prototype` value — so own properties
of the old template are reachable from new instances only through the
source's delegation chain.  (The original unreachability clause fails under
self-extension, where that chain starts at the old template itself: see the
counterexample.) -/
theorem c10_callable_target_template_replaced (h0 : Heap) (source : Value)
    (rest : List Value) (h1 : Heap) (nsA tA oldP : Addr) (tO : Obj) (tc : Code) (PV : Value)
    (hwf0 : h0.wf)
    (ht0 : h0.objs tA = some tO) (htc : tO.code = some tc)
    (hs : normalizeSpec h0 source = .ok h1 (.ref nsA))
    (hPV : h1.getOwn nsA "prototype" = some PV)
    (hold : h0.getOwn tA "prototype" = some (.ref oldP))
    (holdLive : (h0.objs oldP).isSome) :
    ∃ hF pA, extendFn h0 (source :: .ref tA :: rest) = .ok hF (.ref tA) ∧
      hF.getOwn tA "prototype" = some (.ref pA) ∧
      h0.objs pA = none ∧ pA ≠ oldP ∧
      (∀ k, k ≠ "constructor" → k ≠ "parent" → hF.getOwn pA k = none) ∧
      (∃ po, hF.objs pA = some po ∧ po.proto = PV) := by
  have hty : typeOf h0 (.ref tA) = "function" := typeOf_fn h0 tA tO tc ht0 htc
  have ht : targetNorm h0 h1 (.ref tA) = .ok h1 (.ref tA) := by
    unfold targetNorm
    rw [hty]
    simp
  obtain ⟨nsA0, hnsEq, hnsLive1, hp01⟩ := normalizeSpec_ok_facts h0 source h1 _ hs
  injection hnsEq with hnsEq'
  subst hnsEq'
  have hwf1 : h1.wf := (hp01 hwf0).2.2
  have htLive1 : (h1.objs tA).isSome := pres_live hp01 hwf0 (by simp [ht0])
  have heq := extendCore_eq_build h0 source (.ref tA) h1 h1 nsA tA hs ht
    (hwf1.1 tA htLive1)
  obtain ⟨_, _, _, _, _, hKproto, _, _, _, _, hPo, _⟩ :=
    extendBuild_facts h1 (typeOf h0 (.ref tA)) nsA tA hwf1 htLive1 hnsLive1
  obtain ⟨po, hpo1, _, hpo3, hpo4⟩ := hPo
  rw [getProp_stage4_own h1 nsA tA PV hwf1 hnsLive1 hPV] at hpo3
  have h01 : h0.next ≤ h1.next := (hp01 hwf0).1
  have hfresh : h0.objs (h1.next + 1) = none := by
    cases hcon : h0.objs (h1.next + 1) with
    | none => rfl
    | some oo =>
      have := hwf0.1 (h1.next + 1) (by simp [hcon])
      exact absurd this (by
        intro hlt
        have : h1.next + 1 < h1.next + 1 := Nat.lt_of_lt_of_le hlt
          (le_trans h01 (Nat.le_succ _))
        exact absurd this (lt_irrefl _))
  refine ⟨(extendBuild h1 (typeOf h0 (.ref tA)) nsA tA).1, h1.next + 1,
    by rw [extendFn_cons]; exact heq, hKproto, hfresh, ?_, ?_, ⟨po, hpo1, hpo3⟩⟩
  · have hthis : oldP < h0.next := hwf0.1 oldP holdLive
    intro hcontra
    rw [← hcontra] at hthis
    have hcon2 : h1.next + 1 < h1.next := Nat.lt_of_lt_of_le hthis h01
    exact absurd hcon2 (Nat.not_lt.mpr (Nat.le_succ _))
  · intro k hk1 hk2
    rw [Heap.getOwn, hpo1]
    exact hpo4 (by rw [hty]; decide) k hk1 hk2

/-- Concrete heap for the C10 counterexample: a callable `f` at 1 whose old
Instance Template at 0 carries an own property `greet`. -/
def c10CexHeap : Heap := listHeap [
  { props := [("greet", .str "hi")], proto := .undef, code := none },
  { props := [("prototype", .ref 0)], proto := .undef, code := some .noop }]

/-- C10 counterexample to the claim as stated: under the self-extension
`extend(f, f)` the target is a callable, its template is replaced by the
fresh template at 3, and the fresh template holds no own copy of `greet`;
yet it delegates to the old template at 0 (the link's `F.prototype` was
read from the source — here `f` itself — before the replacement), so
`greet` is still reachable by delegation, both from the new template and
from an instance created after the extension (it lands at 5).  This
refutes the clause that properties previously defined on a callable
target's prototype are no longer reachable by delegation from instances
created after `extend`. -/
theorem c10_counterexample :
    Res.val (extendFn c10CexHeap [.ref 1, .ref 1]) = some (.ref 1) ∧
    (Res.heap (extendFn c10CexHeap [.ref 1, .ref 1])).getOwn 1 "prototype"
      = some (.ref 3) ∧
    (Res.heap (extendFn c10CexHeap [.ref 1, .ref 1])).hasOwn 3 "greet" = false ∧
    getProp (Res.heap (extendFn c10CexHeap [.ref 1, .ref 1])) (.ref 3) "greet"
      = .str "hi" ∧
    Res.val (runTask 4 (.newObj (.ref 1) [])
      (Res.heap (extendFn c10CexHeap [.ref 1, .ref 1]))) = some (.ref 5) ∧
    getProp (Res.heap (runTask 4 (.newObj (.ref 1) [])
      (Res.heap (extendFn c10CexHeap [.ref 1, .ref 1])))) (.ref 5) "greet"
      = .str "hi" ∧
    (Value.str "hi") ≠ .undef :=
  ⟨rfl, rfl, rfl, rfl, rfl, rfl, by decide⟩

/-- Concrete heap for the C10 witness: source constructor at 0 with
template at 1; callable target at 2 whose old template at 3 carries an own
property `greet`. -/
def c10Heap : Heap := listHeap [
  { props := [("prototype", .ref 1)], proto := .undef, code := some .noop },
  { props := [], proto := .undef, code := none },
  { props := [("prototype", .ref 3)], proto := .undef, code := some .noop },
  { props := [("greet", .str "hi")], proto := .undef, code := none }]

theorem c10Heap_wf : c10Heap.wf := by
  apply listHeap_wf
  intro o ho
  fin_cases ho <;> decide

/-- C10 witness: extending the source at 0 onto a callable target at 2 on
the concrete heap — the target's template at 3 is replaced by the fresh
template at address 5. -/
theorem c10_witness :
    c10Heap.wf ∧
    (∃ hF pA, extendFn c10Heap [.ref 0, .ref 2] = .ok hF (.ref 2) ∧
      hF.getOwn 2 "prototype" = some (.ref pA) ∧
      c10Heap.objs pA = none ∧ pA ≠ 3 ∧
      (∀ k, k ≠ "constructor" → k ≠ "parent" → hF.getOwn pA k = none) ∧
      (∃ po, hF.objs pA = some po ∧ po.proto = (.ref 1 : Value))) :=
  ⟨c10Heap_wf, c10_callable_target_template_replaced c10Heap (.ref 0) [] c10Heap 0 2 3
    { props := [("prototype", .ref 3)], proto := .undef, code := some .noop } .noop
    (.ref 1) c10Heap_wf rfl rfl rfl rfl rfl rfl⟩

/-- C7 witness: zero arguments raise the ArgumentCount error, and a
two-argument call that fails (bad source) raises a different error. -/
theorem c7_witness :
    (([] : List Value).length < 2 ∧
      extendFn emptyObjHeap [] = .err emptyObjHeap (.typeError extendCountMsg)) ∧
    (emptyObjHeap.wf ∧
      extendFn emptyObjHeap [.num 7, .ref 0] = .err emptyObjHeap
        (.typeError (ctorMsg ++ ("number" ++ " [" ++ "7" ++ "]"))) ∧
      Value.num 7 = Value.num 7 ∧
      (.typeError (ctorMsg ++ ("number" ++ " [" ++ "7" ++ "]"))) ≠
        JsError.typeError extendCountMsg) :=
  ⟨⟨by decide, c7_extend_argument_count.1 emptyObjHeap [] (by decide)⟩,
    ⟨emptyObjHeap_wf, by rfl, rfl,
      c7_extend_argument_count.2.2 emptyObjHeap (.num 7) (.ref 0) [] emptyObjHeap
        (.typeError (ctorMsg ++ ("number" ++ " [" ++ "7" ++ "]"))) emptyObjHeap_wf
        (by rfl)⟩⟩

end Claims

end ConstructorJs
